import Mathlib

/-!
# service-account-token-refresher

A shallow embedding of the token refresher (`pkg/retry`, `pkg/token-refresher`)
and the properties its specification states about it.

Conventions of the embedding

* Go strings are Lean strings; byte slices are lists of naturals below 256.
* `int`, `int64` and `time.Duration` are mathematical integers, wrapped with
  `Go.wrap64` where the program does arithmetic on them.
* Standard-library calls are modelled by their documented behaviour
  (`strings.Split`, `base64.RawURLEncoding`, `path`, `time`, `os`); the JSON
  decoder is a parameter (`Lib.Unmarshal`).
* Everything the program cannot control (failing system calls, the random
  suffix of a temporary file, the clock, the identity authority) is read from
  an `Env`, indexed by the number of calls made so far.
* A function that calls itself uses one frame of the stack of its goroutine
  for each nested call; the number of frames the stack has room for is a
  parameter (`frames`, `Env.stack`), and the call that finds no room aborts
  the process (`Go.Exit.stackOverflow`).
* Log output (`fmt.Printf`, `fmt.Println`) is not modelled.
-/

set_option autoImplicit false

/-! ## Go primitives -/

namespace Go

/-- Smallest value of an `int64`. -/
def minInt64 : Int := -9223372036854775808

/-- Largest value of an `int64`. -/
def maxInt64 : Int := 9223372036854775807

/-- Two-complement wrap-around of an integer into the `int64` range. -/
def wrap64 (x : Int) : Int := (x + 9223372036854775808) % 18446744073709551616 - 9223372036854775808

/-- Saturation of an integer into the `int64` range. -/
def sat64 (x : Int) : Int :=
  if x < minInt64 then minInt64 else if maxInt64 < x then maxInt64 else x

/-- How a call ends: it returns a value, or the runtime aborts the whole
process because the stack of the goroutine cannot grow any further
(`fatal error: stack overflow`). -/
inductive Exit (α : Type) where
  | returned (a : α) : Exit α
  | stackOverflow : Exit α
  deriving DecidableEq

/-- Values of the dynamic type `interface{}` that `encoding/json` produces.  A
`float64` is carried by its exact rational value. -/
inductive Value where
  | null : Value
  | bool (b : Bool) : Value
  | float64 (v : ℚ) : Value
  | string (s : String) : Value
  | slice (xs : List Value) : Value
  | map (kv : List (String × Value)) : Value

/-- The part of the standard library that is kept abstract. -/
structure Lib where
  /-- The call `json.Unmarshal(data, &claims)` with `claims` a
  `map[string]interface{}`: `none` is an error, `some kv` the resulting map
  (the empty map for the JSON text `null`). -/
  Unmarshal : List Nat → Option (List (String × Value))
  /-- The implementation-dependent result of converting to `int64` a `float64`
  whose integer part does not fit. -/
  convOutOfRange : ℚ → Int

/-- The conversion `int64(v)` of a `float64`: the fraction is discarded. -/
def Lib.int64 (lib : Lib) (v : ℚ) : Int :=
  let t := v.num.tdiv v.den
  if minInt64 ≤ t ∧ t ≤ maxInt64 then t else wrap64 (lib.convOutOfRange v)

end Go

/-! ## `strings` -/

namespace strings

/-- Pieces of a character list between occurrences of `sep`. -/
def splitChars (sep : Char) : List Char → List (List Char)
  | [] => [[]]
  | c :: cs =>
    if c = sep then [] :: splitChars sep cs
    else
      match splitChars sep cs with
      | [] => [[c]]
      | h :: t => (c :: h) :: t

/-- The call `strings.Split(s, sep)` for a one-byte separator. -/
def Split (s : String) (sep : Char) : List String :=
  (splitChars sep s.data).map String.mk

end strings

/-! ## `encoding/base64` -/

namespace base64

/-- The constant `encodeURL`: the URL-safe alphabet, in the order of the
values of its characters. -/
def encodeURL : String := "ABCDEFGHIJKLMNOPQRSTUVWXYZabcdefghijklmnopqrstuvwxyz0123456789-_"

/-- Value of a character of the URL-safe alphabet. -/
def decodeSextet (c : Char) : Option Nat :=
  if 'A' ≤ c ∧ c ≤ 'Z' then some (c.toNat - 65)
  else if 'a' ≤ c ∧ c ≤ 'z' then some (c.toNat - 97 + 26)
  else if '0' ≤ c ∧ c ≤ '9' then some (c.toNat - 48 + 52)
  else if c = '-' then some 62
  else if c = '_' then some 63
  else none

/-- Values of the characters of the input; `\r` and `\n` are skipped, any
other character outside the alphabet (the padding `=` included) is an error. -/
def sextets : List Char → Option (List Nat)
  | [] => some []
  | c :: cs =>
    if c = '\n' ∨ c = '\r' then sextets cs
    else
      match decodeSextet c, sextets cs with
      | some v, some vs => some (v :: vs)
      | _, _ => none

/-- Bytes of a sequence of 6-bit values: four values give three bytes, a final
group of three gives two bytes, of two gives one byte, a single left-over value
is an error.  Unused trailing bits are ignored (non-strict decoding). -/
def decodeQuanta : List Nat → Option (List Nat)
  | a :: b :: c :: d :: rest =>
    (decodeQuanta rest).map
      (fun t => (a * 4 + b / 16) :: ((b % 16) * 16 + c / 4) :: ((c % 4) * 64 + d) :: t)
  | [a, b, c] => some [a * 4 + b / 16, (b % 16) * 16 + c / 4]
  | [a, b] => some [a * 4 + b / 16]
  | [_] => none
  | [] => some []

/-- The character of the URL-safe alphabet for a 6-bit value. -/
def encodeSextet (v : Nat) : Char :=
  if v < 26 then Char.ofNat (65 + v)
  else if v < 52 then Char.ofNat (97 + (v - 26))
  else if v < 62 then Char.ofNat (48 + (v - 52))
  else if v = 62 then '-'
  else '_'

/-- The characters that encode a sequence of bytes: three bytes give four
characters, a final group of two bytes gives three characters, of one byte
two; there is no padding. -/
def encodeChars : List Nat → List Char
  | a :: b :: c :: rest =>
    encodeSextet (a / 4) :: encodeSextet ((a % 4) * 16 + b / 16) ::
      encodeSextet ((b % 16) * 4 + c / 64) :: encodeSextet (c % 64) :: encodeChars rest
  | [a, b] => [encodeSextet (a / 4), encodeSextet ((a % 4) * 16 + b / 16), encodeSextet ((b % 16) * 4)]
  | [a] => [encodeSextet (a / 4), encodeSextet ((a % 4) * 16)]
  | [] => []

namespace RawURLEncoding

/-- The call `base64.RawURLEncoding.DecodeString(s)`; `none` is an error. -/
def DecodeString (s : String) : Option (List Nat) :=
  (sextets s.data).bind decodeQuanta

/-- The call `base64.RawURLEncoding.EncodeToString(src)`. -/
def EncodeToString (src : List Nat) : String := String.mk (encodeChars src)

end RawURLEncoding

end base64

/-! ## `time` -/

namespace time

/-- One second as a `time.Duration` (nanoseconds). -/
def Second : Int := 1000000000

/-- The constant `unixToInternal`: the seconds from year 1, where the seconds
of a `Time` start, to the epoch. -/
def unixToInternal : Int := 62135596800

/-- The instant `time.Unix(sec, nsec)` for `0 ≤ nsec < 1e9`, in nanoseconds
since the epoch.  A `Time` keeps its seconds in an `int64` counted from year 1,
so the sum `sec + unixToInternal` wraps around. -/
def Unix (sec nsec : Int) : Int :=
  (Go.wrap64 (sec + unixToInternal) - unixToInternal) * Second + nsec

/-- The call `time.Until(t)` when the clock reads `now`: the duration
`t - now`, saturated to the range of a `Duration`. -/
def Until (now t : Int) : Int := Go.sat64 (t - now)

/-- The method `Duration.Milliseconds`: the duration as a count of
milliseconds, `int64(d) / 1e6` with the division of Go, which truncates toward
zero. -/
def Milliseconds (d : Int) : Int := Int.tdiv d 1000000

end time

/-! ## Token validity (`token.go`) -/

namespace tokenrefresher

/-- The function `isTokenValid`: checks that the `exp` claim of the token lies
at least `minExp` in the future.  `now` is the reading of the clock. -/
def isTokenValid (lib : Go.Lib) (now : Int) (token : String) (minExp : Int) : Bool :=
  let parts := strings.Split token '.'
  if h : parts.length ≠ 3 then false
  else
    match base64.RawURLEncoding.DecodeString (parts.get ⟨1, by omega⟩) with
    | none => false
    | some data =>
      match lib.Unmarshal data with
      | none => false
      | some claims =>
        match claims.lookup "exp" with
        | some (Go.Value.float64 exp) =>
          let expiresAt := time.Unix (lib.int64 exp) 0
          let expiresIn := time.Until now expiresAt
          if expiresIn < 0 then false
          else if expiresIn < minExp then false
          else true
        | _ => false

end tokenrefresher

/-! ## A sample library instance -/

namespace Sample

/-- Value of a string of decimal digits, `none` if a character is not a digit. -/
def digitsValue : List Nat → Nat → Option Nat
  | [], acc => some acc
  | b :: bs, acc => if 48 ≤ b ∧ b ≤ 57 then digitsValue bs (acc * 10 + (b - 48)) else none

/-- The number written as `N` or `N.F` in decimal digits.  A fraction is read
exactly, the rounding to a `float64` is not modelled: the samples use numbers
that a `float64` holds exactly. -/
def numberValue (bs : List Nat) : Option ℚ :=
  match bs.span (fun b => b != 46) with
  | (ip, []) => if ip = [] then none else (digitsValue ip 0).map (fun n => (n : ℚ))
  | (ip, _ :: fp) =>
    if ip = [] ∨ fp = [] then none
    else
      match digitsValue ip 0, digitsValue fp 0 with
      | some n, some f => some (mkRat (n * 10 ^ fp.length + f) (10 ^ fp.length))
      | _, _ => none

/-- A JSON decoder for the claim documents that the tests of the repository
build, `\x7b"exp":N\x7d` with `N` a number in decimal digits; it rejects
every other input. -/
def unmarshalExp (data : List Nat) : Option (List (String × Go.Value)) :=
  match data with
  | 123 :: 34 :: 101 :: 120 :: 112 :: 34 :: 58 :: d :: rest =>
    match (d :: rest).reverse with
    | 125 :: ds => (numberValue ds.reverse).map (fun v => [("exp", Go.Value.float64 v)])
    | _ => none
  | _ => none

/-- The sample library: `unmarshalExp`, and out-of-range conversions as on
amd64. -/
def lib : Go.Lib := ⟨unmarshalExp, fun _ => Go.minInt64⟩

/-- The bytes of the claims `\x7b"exp":1700007200\x7d`. -/
def claims : List Nat :=
  [123, 34, 101, 120, 112, 34, 58, 49, 55, 48, 48, 48, 48, 55, 50, 48, 48, 125]

end Sample

/-! ## `path` -/

namespace path

/-- Index at which the backtracking loop of `Clean` stops: starting from `w`,
step back while `w > dotdot` and the byte at `w` is not a slash. -/
def backScan (out : List Char) (dotdot : Nat) : Nat → Nat
  | 0 => 0
  | w + 1 => if dotdot < w + 1 ∧ out.getD (w + 1) '/' ≠ '/' then backScan out dotdot w else w + 1

/-- One path element processed by `Clean`; the state is the output buffer and
the index `dotdot` below which the buffer must not be cut. -/
def cleanStep (rooted : Bool) (st : List Char × Nat) (e : List Char) : List Char × Nat :=
  let out := st.1
  let dotdot := st.2
  if e = [] ∨ e = ['.'] then st
  else if e = ['.', '.'] then
    if dotdot < out.length then (out.take (backScan out dotdot (out.length - 1)), dotdot)
    else if !rooted then
      let out1 := (if 0 < out.length then out ++ ['/'] else out) ++ ['.', '.']
      (out1, out1.length)
    else st
  else
    let sep := (rooted && out.length != 1) || (!rooted && out.length != 0)
    ((if sep then out ++ ['/'] else out) ++ e, dotdot)

/-- The function `path.Clean`, on characters. -/
def cleanChars (p : List Char) : List Char :=
  if p = [] then ['.']
  else
    let rooted := p.head? = some '/'
    let init : List Char × Nat := if rooted then (['/'], 1) else ([], 0)
    let out := ((strings.splitChars '/' p).foldl (cleanStep rooted) init).1
    if out = [] then ['.'] else out

/-- The function `path.Clean`: the shortest path name equivalent to `p`. -/
def Clean (p : String) : String := String.mk (cleanChars p.data)

/-- The characters after the last slash (all of them if there is no slash). -/
def afterLastSlash (cs : List Char) : List Char :=
  (cs.reverse.takeWhile (fun c => c != '/')).reverse

/-- The characters up to and including the last slash. -/
def uptoLastSlash (cs : List Char) : List Char :=
  (cs.reverse.dropWhile (fun c => c != '/')).reverse

/-- The characters without the trailing slashes. -/
def trimSlashes (cs : List Char) : List Char :=
  (cs.reverse.dropWhile (fun c => c == '/')).reverse

/-- The function `path.Dir`: all but the last element of the path, cleaned. -/
def Dir (p : String) : String := String.mk (cleanChars (uptoLastSlash p.data))

/-- The function `path.Base`: the last element of the path. -/
def Base (p : String) : String :=
  if p.data = [] then "."
  else
    let t := afterLastSlash (trimSlashes p.data)
    if t = [] then "/" else String.mk t

/-- The buffer that `path.Join` builds before cleaning it. -/
def joinChars : List Char → List String → List Char
  | buf, [] => buf
  | buf, e :: es =>
    if 0 < buf.length ∨ e.data ≠ [] then
      joinChars ((if 0 < buf.length then buf ++ ['/'] else buf) ++ e.data) es
    else joinChars buf es

/-- The function `path.Join`. -/
def Join (elems : List String) : String :=
  if (elems.map (fun e => e.data.length)).sum = 0 then ""
  else String.mk (cleanChars (joinChars [] elems))

end path

/-! ## The identity authority -/

/-- The fields of `v1.TokenRequest` that the program uses: the requested
audiences and lifetime (`Spec`) and the issued token (`Status.Token`). -/
structure TokenRequest where
  Audiences : List String
  ExpirationSeconds : Int
  Token : String
  deriving DecidableEq

/-- The interface `kubernetes.Interface`, reduced to the issuance operation
`CoreV1().ServiceAccounts(ns).CreateToken(ctx, sa, req, opts)`.  The first
argument is the number of calls made so far, so that the authority may answer
the same request differently over time. -/
structure Client where
  CreateToken : Nat → String → String → TokenRequest → Except String TokenRequest

/-! ## The environment and the state of the world -/

namespace os

/-- A directory entry. -/
inductive Node where
  | file (data : String) : Node
  | symlink (target : String) : Node
  | dir : Node
  deriving DecidableEq

/-- The file system: the directory entries by name, first match wins.  A name
is an absolute path name or one relative to the working directory of the
process, and is taken literally; access rights and the directory tree are not
modelled. -/
abbrev FS := List (String × Node)

/-- The name that the target of the symbolic link at `link` stands for: an
absolute target stands for itself, a relative target is read from the
directory that holds the link. -/
def resolveLink (link target : String) : String :=
  if target.data.head? = some '/' then target else path.Join [path.Dir link, target]

/-- The entry at `name` itself (`lstat`). -/
def FS.lstat (fs : FS) (name : String) : Option Node := fs.lookup name

/-- The file system without the entry at `name`. -/
def FS.unlink (fs : FS) (name : String) : FS := fs.filter (fun e => e.1 != name)

/-- The file system with the entry at `name` replaced by `n`. -/
def FS.set (fs : FS) (name : String) (n : Node) : FS := (name, n) :: fs.unlink name

/-- The node that `name` resolves to, following symbolic links.  A link that
is followed is taken out of the file system, so that a cycle of links ends as
a missing name. -/
def FS.follow : Nat → FS → String → Option Node
  | 0, _, _ => none
  | n + 1, fs, name =>
    match fs.lstat name with
    | none => none
    | some (Node.symlink target) => FS.follow n (fs.unlink name) (resolveLink name target)
    | some nd => some nd

/-- The node that `name` resolves to (`stat`); `none` if the name or the
target of a link on the way is missing, or the links form a cycle.  The bound
of the kernel on the number of links followed is not modelled. -/
def FS.stat (fs : FS) (name : String) : Option Node := FS.follow (fs.length + 1) fs name

/-- The content read through `name`, `none` if `name` does not resolve to a
regular file. -/
def FS.read (fs : FS) (name : String) : Option String :=
  match fs.stat name with
  | some (Node.file data) => some data
  | _ => none

/-- A call to the operating system or to the identity authority, with its
arguments and whether it succeeded; `Fatal` is the abort of the process by the
runtime. -/
inductive Call where
  | Stat (name : String) (ok : Bool) : Call
  | ReadFile (name : String) (ok : Bool) : Call
  | Symlink (oldname newname : String) (ok : Bool) : Call
  | OpenFile (name : String) (ok : Bool) : Call
  | WriteString (name data : String) (ok : Bool) : Call
  | Close (name : String) : Call
  | Rename (oldpath newpath : String) (ok : Bool) : Call
  | Remove (name : String) (ok : Bool) : Call
  | CreateToken (ns sa : String) (req : TokenRequest) (ok : Bool) : Call
  | Sleep (d : Int) : Call
  | Fatal (msg : String) : Call
  deriving DecidableEq

/-- The state of the world: the file system and the calls made so far, oldest
first. -/
structure World where
  fs : FS
  trace : List Call
  deriving DecidableEq

/-- What the program cannot control.  The index of `fault`, `rand`, `written`
and `clock` is the number of calls made so far. -/
structure Env where
  /-- The abstract part of the standard library. -/
  lib : Go.Lib
  /-- Whether the call fails for a reason outside the model (rights, I/O
  error, read-only or full file system). -/
  fault : Nat → Bool
  /-- The random number drawn for the name of a temporary file. -/
  rand : Nat → Nat
  /-- The number of bytes that a failing write has written. -/
  written : Nat → Nat
  /-- The reading of the clock, in nanoseconds since the epoch. -/
  clock : Nat → Int
  /-- The directory `os.TempDir()`. -/
  tempDir : String
  /-- The number of nested calls of `retry.Retry` that the stack of the
  goroutine of `refreshLoop` has room for; the runtime lets a stack grow to a
  fixed size (1 GB on a 64-bit platform) and no further. -/
  stack : Nat
  /-- The function `createKubeClient`, which builds the client of the
  identity authority from the cluster configuration. -/
  createKubeClient : String → Except String Client

/-- The world after one more call. -/
def World.log (w : World) (c : Call) : World := ⟨w.fs, w.trace ++ [c]⟩

/-- The call `os.Stat(name)`; it fails exactly when `name` does not resolve. -/
def Stat (name : String) (w : World) : Option Node × World :=
  let r := w.fs.stat name
  (r, w.log (Call.Stat name r.isSome))

/-- The call `os.ReadFile(name)`; it fails exactly when `name` does not
resolve to a regular file. -/
def ReadFile (name : String) (w : World) : Option String × World :=
  let r := w.fs.read name
  (r, w.log (Call.ReadFile name r.isSome))

/-- The call `os.Symlink(oldname, newname)`: creates `newname` as a link to
`oldname`; it fails if `newname` exists.  The result is the error, if any. -/
def Symlink (env : Env) (oldname newname : String) (w : World) : Option String × World :=
  if env.fault w.trace.length ∨ (w.fs.lstat newname).isSome then
    (some ("symlink " ++ oldname ++ " " ++ newname ++ ": failed"),
      w.log (Call.Symlink oldname newname false))
  else
    (none, ⟨w.fs.set newname (Node.symlink oldname), w.trace ++ [Call.Symlink oldname newname true]⟩)

/-- The call `os.Rename(oldpath, newpath)`: moves the entry at `oldpath` to
`newpath`, replacing what is there; it fails if `oldpath` is missing or
`newpath` is a directory. -/
def Rename (env : Env) (oldpath newpath : String) (w : World) : Option String × World :=
  match w.fs.lstat oldpath with
  | none => (some ("rename " ++ oldpath ++ " " ++ newpath ++ ": no such file or directory"),
      w.log (Call.Rename oldpath newpath false))
  | some nd =>
    if env.fault w.trace.length ∨ w.fs.lstat newpath = some Node.dir then
      (some ("rename " ++ oldpath ++ " " ++ newpath ++ ": failed"),
        w.log (Call.Rename oldpath newpath false))
    else if oldpath = newpath then (none, w.log (Call.Rename oldpath newpath true))
    else
      (none, ⟨(w.fs.unlink oldpath).set newpath nd, w.trace ++ [Call.Rename oldpath newpath true]⟩)

/-- The call `os.Remove(name)`: removes the entry at `name`; it fails if there
is none. -/
def Remove (env : Env) (name : String) (w : World) : Option String × World :=
  if env.fault w.trace.length ∨ (w.fs.lstat name).isNone then
    (some ("remove " ++ name ++ ": failed"), w.log (Call.Remove name false))
  else (none, ⟨w.fs.unlink name, w.trace ++ [Call.Remove name true]⟩)

/-- The split of the pattern of `os.CreateTemp` at its last `*`: the random
string goes between the two parts. -/
def prefixAndSuffix (pattern : List Char) : List Char × List Char :=
  if pattern.contains '*' then
    ((pattern.reverse.dropWhile (fun c => c != '*')).reverse.dropLast,
      (pattern.reverse.takeWhile (fun c => c != '*')).reverse)
  else (pattern, [])

/-- The function `joinPath` of package `os`. -/
def joinPath (dir name : List Char) : List Char :=
  if dir.getLast? = some '/' then dir ++ name else dir ++ '/' :: name

/-- The loop of `os.CreateTemp`: draw a name, create the file exclusively, and
draw again, at most `tries` times, while the name exists. -/
def createTempLoop (env : Env) (pre suf : List Char) : Nat → World → Except String String × World
  | 0, w => (Except.error "file exists", w)
  | tries + 1, w =>
    let name := String.mk (pre ++ Nat.toDigits 10 (env.rand w.trace.length) ++ suf)
    if (w.fs.lstat name).isSome then
      createTempLoop env pre suf tries (w.log (Call.OpenFile name false))
    else if env.fault w.trace.length then
      (Except.error ("open " ++ name ++ ": failed"), w.log (Call.OpenFile name false))
    else (Except.ok name, ⟨w.fs.set name (Node.file ""), w.trace ++ [Call.OpenFile name true]⟩)

/-- The call `os.CreateTemp(dir, pattern)`: creates a new file in `dir` whose
name is `pattern` with a random string in place of its last `*`, or at its end.
The result is the name of the file, which stands for the open file. -/
def CreateTemp (env : Env) (dir pattern : String) (w : World) : Except String String × World :=
  if pattern.data.contains '/' then (Except.error "pattern contains path separator", w)
  else
    let dir1 := if dir.data = [] then env.tempDir else dir
    let ps := prefixAndSuffix pattern.data
    createTempLoop env (joinPath dir1.data ps.1) ps.2 10000 w

/-- The call `f.WriteString(data)` on the open file `f`: appends `data`; a
failing write leaves a part of `data` behind. -/
def WriteString (env : Env) (f data : String) (w : World) : Option String × World :=
  match w.fs.lstat f with
  | some (Node.file old) =>
    if env.fault w.trace.length then
      (some "write failed",
        ⟨w.fs.set f (Node.file (old ++ String.mk (data.data.take (env.written w.trace.length)))),
          w.trace ++ [Call.WriteString f data false]⟩)
    else (none, ⟨w.fs.set f (Node.file (old ++ data)), w.trace ++ [Call.WriteString f data true]⟩)
  | _ => (some "write failed: file already closed", w.log (Call.WriteString f data false))

/-- The call `f.Close()`; its result is ignored by the program. -/
def Close (f : String) (w : World) : World := w.log (Call.Close f)

end os

namespace time

/-- The call `time.Sleep(d)`. -/
def Sleep (d : Int) (w : os.World) : os.World := w.log (os.Call.Sleep d)

end time

/-! ## `token.go` -/

namespace tokenrefresher

open os

/-- The function `readTokenAndValidate`. -/
def readTokenAndValidate (env : Env) (tokenFile : String) (minExp : Int) (w : World) :
    Bool × World :=
  match ReadFile tokenFile w with
  | (none, w1) => (false, w1)
  | (some b, w1) => (isTokenValid env.lib (env.clock w1.trace.length) b minExp, w1)

/-- The function `writeTemp`: the name of the temporary file and the error. -/
def writeTemp (env : Env) (filename data : String) (w : World) :
    (String × Option String) × World :=
  match CreateTemp env (path.Dir filename) (path.Base filename) w with
  | (Except.error e, w1) => (("", some ("unable to create file: " ++ e)), w1)
  | (Except.ok f, w1) =>
    match WriteString env f data w1 with
    | (some e, w2) => ((f, some ("unable to write to file " ++ f ++ ": " ++ e)), Close f w2)
    | (none, w2) => ((f, none), Close f w2)

/-- The function `safeWrite`: first writes to a temporary file and then
switches it with the target file by renaming.  The removal of the temporary
file is deferred, it runs whenever the function returns after `writeTemp` has
succeeded. -/
def safeWrite (env : Env) (filename data : String) (w : World) : Option String × World :=
  match writeTemp env filename data w with
  | ((_, some e), w1) => (some e, w1)
  | ((tmpFilename, none), w1) =>
    match Rename env tmpFilename filename w1 with
    | (some e, w2) =>
      (some ("unable to rename " ++ tmpFilename ++ " to " ++ filename ++ ": " ++ e),
        (Remove env tmpFilename w2).2)
    | (none, w2) => (none, (Remove env tmpFilename w2).2)

/-- The function `createToken` of `token.go`: the issuance call. -/
def createToken (client : Client) (ns sa : String) (req : TokenRequest) (w : os.World) :
    Except String TokenRequest × os.World :=
  let r := client.CreateToken w.trace.length ns sa req
  (r, w.log (os.Call.CreateToken ns sa req r.toBool))

end tokenrefresher

/-! ## `retry.go` -/

namespace retry

/-- The function `Retry`, over any state `σ` that `f` and `time.Sleep` act on;
`doSleep` is the effect of `time.Sleep`.  `attempts` is an `int` of 64 bits.
The function calls itself, and a call in Go keeps the frame of its caller on
the stack, also in tail position: `frames` is the number of further nested
calls of `Retry` that the stack of the goroutine has room for, and the call
that finds no room ends the process.  The stack that `f` needs is not
modelled. -/
def Retry {σ ε : Type} (doSleep : Int → σ → σ) (frames : Nat) (attempts : Int) (sleep : Int)
    (f : σ → (Option ε × Bool) × σ) (s : σ) : Go.Exit (Option ε) × σ :=
  match f s with
  | ((some err, isRetryable), s1) =>
    if !isRetryable then (Go.Exit.returned (some err), s1)
    else if 0 < Go.wrap64 (attempts - 1) then
      match frames with
      | 0 => (Go.Exit.stackOverflow, doSleep sleep s1)
      | frames1 + 1 => Retry doSleep frames1 (Go.wrap64 (attempts - 1)) sleep f (doSleep sleep s1)
    else (Go.Exit.returned (some err), s1)
  | ((none, _), s1) => (Go.Exit.returned none, s1)

/-- The configuration `Retryer`. -/
structure Retryer where
  MaxAttempts : Int
  Sleep : Int

/-- The method `Retryer.Do`. -/
def Retryer.Do {σ ε : Type} (r : Retryer) (doSleep : Int → σ → σ) (frames : Nat)
    (f : σ → (Option ε × Bool) × σ) (s : σ) : Go.Exit (Option ε) × σ :=
  Retry doSleep frames r.MaxAttempts r.Sleep f s

end retry

/-! ## `token-refresher.go` -/

namespace tokenrefresher

/-- The constant `ShutdownFile`. -/
def ShutdownFile : String := "shutdown"

/-- The configuration and derived state of the refresher. -/
structure TokenRefresher where
  Namespace : String
  ServiceAccount : String
  KubeConfig : String
  DefaultTokenFile : String
  TokenFile : String
  TokenAudience : List String
  ExpirationDuration : Int
  RefreshInterval : Int
  ShutdownInterval : Int
  Retryer : retry.Retryer
  minExpiryDuration : Int
  shutdownFile : String

/-- What happens while the refresher waits in `waitForTrigger`: the stop
channel is closed, the ticker of `monitorToken` fires, or somebody else
changes the file system.  The package `pkg/ticker` is not among the sources;
a ticker is represented by the ticks it delivers, and the order in which the
events arrive is a parameter of `waitForTrigger` and `Run`. -/
inductive MonitorEvent where
  | stop : MonitorEvent
  | tick : MonitorEvent
  | external (g : os.FS → os.FS) : MonitorEvent

/-- What happens while the refresher waits in `refreshLoop`: one of its two
tickers fires, or somebody else changes the file system.  The order in which
the events arrive is a parameter of `refreshLoop` and `Run`. -/
inductive RefreshEvent where
  | refreshTick : RefreshEvent
  | shutdownTick : RefreshEvent
  | external (g : os.FS → os.FS) : RefreshEvent

/-- How far `Run` has come when the events are used up.  A process that the
runtime has aborted in `refreshLoop` has come to `refreshing`: the method has
not returned, and the trace ends with the call `Fatal`. -/
inductive RunResult where
  | failed (err : String) : RunResult
  | monitoring : RunResult
  | refreshing : RunResult
  | returned : RunResult
  deriving DecidableEq

namespace TokenRefresher

open os

/-- The method `shouldShutdown`. -/
def shouldShutdown (r : TokenRefresher) (w : World) : Bool × World :=
  match Stat r.shutdownFile w with
  | (none, w1) => (false, w1)
  | (some _, w1) => (true, w1)

/-- The method `ensureTarget`. -/
def ensureTarget (env : Env) (r : TokenRefresher) (w : World) : Option String × World :=
  match Stat r.DefaultTokenFile w with
  | (none, w1) =>
    (some ("unable to access default token at " ++ r.DefaultTokenFile ++ ": no such file"), w1)
  | (some _, w1) =>
    match Stat r.TokenFile w1 with
    | (some _, w2) => (none, w2)
    | (none, w2) =>
      match Symlink env r.DefaultTokenFile r.TokenFile w2 with
      | (some e, w3) =>
        (some ("unable to symlink " ++ r.TokenFile ++ " -> " ++ r.DefaultTokenFile ++ ": " ++ e), w3)
      | (none, w3) => (none, w3)

/-- The method `Init`: the client or the error, and the refresher with its
derived fields set. -/
def Init (env : Env) (r : TokenRefresher) (w : World) :
    Except String Client × TokenRefresher × World :=
  let r1 : TokenRefresher :=
    { r with
      minExpiryDuration := Go.wrap64 (r.RefreshInterval + Int.tdiv r.RefreshInterval 2)
      shutdownFile := path.Join [path.Dir r.TokenFile, ShutdownFile] }
  match r1.ensureTarget env w with
  | (some e, w1) => (Except.error e, r1, w1)
  | (none, w1) => (env.createKubeClient r1.KubeConfig, r1, w1)

/-- The method `createToken`: the issued token or the error. -/
def createToken (r : TokenRefresher) (client : Client) (w : World) : Except String String × World :=
  let expSec := Int.tdiv (time.Milliseconds r.ExpirationDuration) 1000
  let req : TokenRequest := ⟨r.TokenAudience, expSec, ""⟩
  match tokenrefresher.createToken client r.Namespace r.ServiceAccount req w with
  | (Except.error e, w1) => (Except.error ("unable to create token: " ++ e), w1)
  | (Except.ok resp, w1) => (Except.ok resp.Token, w1)

/-- The method `refresh`. -/
def refresh (env : Env) (r : TokenRefresher) (client : Client) (w : World) : Option String × World :=
  match r.createToken client w with
  | (Except.error e, w1) => (some e, w1)
  | (Except.ok token, w1) =>
    if !isTokenValid env.lib (env.clock w1.trace.length) token r.minExpiryDuration then
      (some "invalid token from server", w1)
    else safeWrite env r.TokenFile token w1

/-- One tick of the ticker in `monitorToken`: the message sent to
`waitForTrigger`, if any. -/
def monitorToken (env : Env) (r : TokenRefresher) (w : World) : Option String × World :=
  match readTokenAndValidate env r.TokenFile r.minExpiryDuration w with
  | (false, w1) => (some "Invalid/expired token detected", w1)
  | (true, w1) =>
    match r.shouldShutdown w1 with
    | (true, w2) => (some "Shutdown file detected while monitoring token", w2)
    | (false, w2) => (none, w2)

/-- The method `waitForTrigger`: returns at the stop signal or at the first
message of `monitorToken`.  The result says whether the method has returned
before the events are used up. -/
def waitForTrigger (env : Env) (r : TokenRefresher) : List MonitorEvent → World → Bool × World
  | [], w => (false, w)
  | MonitorEvent.stop :: _, w => (true, w)
  | MonitorEvent.tick :: evs, w =>
    match r.monitorToken env w with
    | (some _, w1) => (true, w1)
    | (none, w1) => waitForTrigger env r evs w1
  | MonitorEvent.external g :: evs, w => waitForTrigger env r evs ⟨g w.fs, w.trace⟩

/-- One turn of the loop of `refreshLoop`: the result says whether the method
returns.  The error that `Do` returns is logged and dropped.  When `Do` runs
out of stack the runtime aborts the process: the method does not return, the
abort is the last call of the trace, and no event is delivered after it (a
list of events that goes on past it describes no execution). -/
def refreshStep (env : Env) (r : TokenRefresher) (client : Client) (ev : RefreshEvent) (w : World) :
    Bool × World :=
  match ev with
  | RefreshEvent.refreshTick =>
    match r.Retryer.Do time.Sleep env.stack
        (fun w1 => let p := r.refresh env client w1; ((p.1, true), p.2)) w with
    | (Go.Exit.returned _, w1) => (false, w1)
    | (Go.Exit.stackOverflow, w1) => (false, w1.log (Call.Fatal "stack overflow"))
  | RefreshEvent.shutdownTick =>
    match r.shouldShutdown w with
    | (true, w1) => (true, (Remove env r.shutdownFile w1).2)
    | (false, w1) => (false, w1)
  | RefreshEvent.external g => (false, ⟨g w.fs, w.trace⟩)

/-- The method `refreshLoop`.  The result says whether the method has returned
before the events are used up. -/
def refreshLoop (env : Env) (r : TokenRefresher) (client : Client) :
    List RefreshEvent → World → Bool × World
  | [], w => (false, w)
  | ev :: evs, w =>
    match r.refreshStep env client ev w with
    | (true, w1) => (true, w1)
    | (false, w1) => refreshLoop env r client evs w1

/-- The method `Run`, on the events `mon` of the monitoring phase and `ref` of
the refresh phase. -/
def Run (env : Env) (r : TokenRefresher) (mon : List MonitorEvent) (ref : List RefreshEvent)
    (w : World) : RunResult × World :=
  match r.Init env w with
  | (Except.error e, _, w1) => (RunResult.failed ("unable to initialize: " ++ e), w1)
  | (Except.ok client, r1, w1) =>
    match r1.waitForTrigger env mon w1 with
    | (false, w2) => (RunResult.monitoring, w2)
    | (true, w2) =>
      match r1.refreshLoop env client ref w2 with
      | (false, w3) => (RunResult.refreshing, w3)
      | (true, w3) => (RunResult.returned, w3)

end TokenRefresher

end tokenrefresher

/-! ## Notions used to state the properties -/

namespace os

/-- The names visited while `name` is resolved, in order. -/
def FS.chainFrom : Nat → FS → String → List String
  | 0, _, _ => []
  | n + 1, fs, name =>
    match fs.lstat name with
    | some (Node.symlink target) =>
      name :: FS.chainFrom n (fs.unlink name) (resolveLink name target)
    | _ => [name]

/-- The chain of symbolic links that starts at `name`: `name`, the name that
the target of the link at `name` stands for, and so on, up to the first name
that is not a link. -/
def FS.chain (fs : FS) (name : String) : List String := FS.chainFrom (fs.length + 1) fs name

/-- The calls made from world `w` to the later world `w1`. -/
def World.since (w w1 : World) : List Call := w1.trace.drop w.trace.length

end os

namespace retry

/-- A state with counters of the invocations of the operation and of the
sleeps. -/
structure Meter (σ : Type) where
  state : σ
  calls : Nat
  sleeps : Nat

/-- The operation `f`, counting its invocations. -/
def metered {σ ε : Type} (f : σ → (Option ε × Bool) × σ) (m : Meter σ) :
    (Option ε × Bool) × Meter σ :=
  ((f m.state).1, ⟨(f m.state).2, m.calls + 1, m.sleeps⟩)

/-- The effect of `time.Sleep`, counting the sleeps. -/
def meteredSleep {σ : Type} (doSleep : Int → σ → σ) (d : Int) (m : Meter σ) : Meter σ :=
  ⟨doSleep d m.state, m.calls, m.sleeps + 1⟩

/-- The state in which `f` is invoked for the `(i+1)`-th time, when each of
the `i` earlier invocations was followed by a sleep. -/
def stateBefore {σ ε : Type} (doSleep : Int → σ → σ) (sleep : Int)
    (f : σ → (Option ε × Bool) × σ) (s : σ) : Nat → σ
  | 0 => s
  | i + 1 => doSleep sleep (f (stateBefore doSleep sleep f s i)).2

/-- The outcome of the `(i+1)`-th invocation of `f`. -/
def outcome {σ ε : Type} (doSleep : Int → σ → σ) (sleep : Int)
    (f : σ → (Option ε × Bool) × σ) (s : σ) (i : Nat) : Option ε × Bool :=
  (f (stateBefore doSleep sleep f s i)).1

end retry

namespace base64

/-- Valid unpadded base64url, in the words of the specification: the string
is the encoding without padding, over the URL-safe alphabet, of some sequence
of bytes. -/
def IsRawURLEncoding (s : String) : Prop :=
  ∃ data : List Nat, (∀ b ∈ data, b < 256) ∧ RawURLEncoding.EncodeToString data = s

/-- The strings that a decoder of unpadded base64url which skips line breaks
has to reject: once the characters `\r` and `\n` are left out, a character
outside the URL-safe alphabet remains (the padding `=` is one), or the number
of characters is 1 modulo 4, which no number of bytes gives. -/
def Rejected (s : String) : Prop :=
  (∃ c ∈ s.data, c ≠ '\n' ∧ c ≠ '\r' ∧ c ∉ encodeURL.data) ∨
  (s.data.filter (fun c => c != '\n' && c != '\r')).length % 4 = 1

end base64

namespace tokenrefresher

/-- A malformed token: it does not split at `.` into three segments, or its
middle segment is one that the decoder of unpadded base64url rejects
(`base64.Rejected`), or `json.Unmarshal` rejects the bytes of the middle
segment, or the resulting map has no `exp` of type `float64`. -/
def Malformed (lib : Go.Lib) (token : String) : Prop :=
  (strings.Split token '.').length ≠ 3 ∨
  ∃ h p s, strings.Split token '.' = [h, p, s] ∧
    (base64.Rejected p ∨
     ∃ data, base64.RawURLEncoding.DecodeString p = some data ∧
      (lib.Unmarshal data = none ∨
       ∃ claims, lib.Unmarshal data = some claims ∧
        ∀ v, claims.lookup "exp" ≠ some (Go.Value.float64 v)))

end tokenrefresher

/-! ## Sample inputs -/

namespace Sample

open tokenrefresher os

/-- A token that expires at second 1700007200. -/
def token : String := ".eyJleHAiOjE3MDAwMDcyMDB9."

/-- A token whose `exp` is 1700007200.5. -/
def fractional : String := ".eyJleHAiOjE3MDAwMDcyMDAuNX0."

/-- The token `token` with a line break in its middle segment. -/
def folded : String := ".eyJleHAi\nOjE3MDAwMDcyMDB9."

/-- The token `fractional` with another last character in its middle segment:
the two bits of that character that encode no byte are `01`, not `00`. -/
def loose : String := ".eyJleHAiOjE3MDAwMDcyMDAuNX1."

/-- A JSON decoder that reads every document as `\x7b"exp":"1700007200"\x7d`,
an object whose `exp` is a string. -/
def stringExpLib : Go.Lib :=
  ⟨fun _ => some [("exp", Go.Value.string "1700007200")], fun _ => Go.minInt64⟩

/-- An identity authority that issues `token`. -/
def client : Client := ⟨fun _ _ _ req => Except.ok ⟨req.Audiences, req.ExpirationSeconds, token⟩⟩

/-- An identity authority that fails, as the fake client of the tests does. -/
def failingClient : Client :=
  ⟨fun _ _ _ _ => Except.error "apiserver overloaded, could not create token"⟩

/-- An environment without faults; the clock stands at second 1700000000, and
the stack has room for 4194304 nested calls of `retry.Retry`. -/
def env : Env :=
  { lib := lib
    fault := fun _ => false
    rand := fun _ => 42
    written := fun _ => 0
    clock := fun _ => 1700000000000000000
    tempDir := "/tmp"
    stack := 4194304
    createKubeClient := fun _ => Except.ok client }

/-- The environment `env` in which the calls number `lo` to `hi - 1` fail; a
failing write stops after two bytes. -/
def faulty (lo hi : Nat) : Env :=
  { env with fault := fun n => decide (lo ≤ n ∧ n < hi), written := fun _ => 2 }

/-- The refresher of the tests, with the retry settings that the command line
has by default. -/
def r : TokenRefresher :=
  { Namespace := "test-ns"
    ServiceAccount := "test-sa"
    KubeConfig := ""
    DefaultTokenFile := "/t/default_token"
    TokenFile := "/t/token"
    TokenAudience := ["sts.amazonaws.com"]
    ExpirationDuration := 7200000000000
    RefreshInterval := 200000000
    ShutdownInterval := 200000000
    Retryer := ⟨3, 20000000000⟩
    minExpiryDuration := 5400000000000
    shutdownFile := "/t/shutdown" }

/-- A world with a managed token of its own. -/
def managed : World :=
  ⟨[("/t/token", Node.file "new_token_contents"),
    ("/t/default_token", Node.file "default_token_contents")], []⟩

/-- A world whose managed token is a link to a name that does not exist. -/
def dangling : World := ⟨[("/t/token", Node.symlink "/t/token42")], []⟩

/-- An operation that always fails and may be retried; its state counts the
invocations. -/
def alwaysFailing (s : Nat) : (Option String × Bool) × Nat :=
  ((some ("attempt " ++ toString s ++ " failed"), true), s + 1)

/-- An operation whose third invocation succeeds; its state counts the
invocations. -/
def thirdTimeLucky (s : Nat) : (Option String × Bool) × Nat :=
  if s = 2 then ((none, false), s + 1) else ((some "try again", true), s + 1)

/-- An operation whose `n`-th invocation succeeds and whose other invocations
fail and may be retried; its state counts the invocations. -/
def luckyAt (n : Nat) (s : Nat) : (Option String × Bool) × Nat :=
  if s + 1 = n then ((none, false), s + 1) else ((some "try again", true), s + 1)

/-- An operation whose first invocation fails and may be retried, and whose
second invocation succeeds; its state counts the invocations. -/
def secondTimeLucky (s : Nat) : (Option String × Bool) × Nat :=
  if s = 0 then ((some "try again", true), s + 1) else ((none, false), s + 1)

end Sample

/-! ## Lemmas on the library models -/

namespace strings

theorem splitChars_ne_nil (sep : Char) (cs : List Char) : splitChars sep cs ≠ [] := by
  cases cs with
  | nil => simp [splitChars]
  | cons c cs =>
    simp only [splitChars]
    split_ifs
    · simp
    · split <;> simp

theorem splitChars_of_not_mem (sep : Char) (a : List Char) (h : sep ∉ a) :
    splitChars sep a = [a] := by
  induction a with
  | nil => rfl
  | cons c cs ih =>
    have hc : c ≠ sep := fun e => h (by simp [e])
    have hs : sep ∉ cs := fun e => h (by simp [e])
    simp [splitChars, hc, ih hs]

theorem splitChars_append (sep : Char) (a b : List Char) (h : sep ∉ a) :
    splitChars sep (a ++ sep :: b) = a :: splitChars sep b := by
  induction a with
  | nil => simp [splitChars]
  | cons c cs ih =>
    have hc : c ≠ sep := fun e => h (by simp [e])
    have hs : sep ∉ cs := fun e => h (by simp [e])
    simp [splitChars, hc, ih hs]

theorem Split_three (h p s : String) (hh : '.' ∉ h.data) (hp : '.' ∉ p.data)
    (hs : '.' ∉ s.data) : Split (h ++ "." ++ p ++ "." ++ s) '.' = [h, p, s] := by
  have e : (h ++ "." ++ p ++ "." ++ s).data = h.data ++ '.' :: (p.data ++ '.' :: s.data) := by
    simp [String.data_append]
  simp [Split, e, splitChars_append, splitChars_of_not_mem, hh, hp, hs]

end strings

namespace base64

theorem sextets_no_dot (cs : List Char) (v : List Nat) (h : sextets cs = some v) : '.' ∉ cs := by
  induction cs generalizing v with
  | nil => simp
  | cons c cs ih =>
    simp only [sextets] at h
    split_ifs at h with hc
    · rcases hc with hc | hc <;> subst hc <;> simpa using ih v h
    · split at h
      · rename_i a b ha hb
        have hne : c ≠ '.' := by
          intro e
          subst e
          simp [decodeSextet] at ha
        simpa [Ne.symm hne] using ih b hb
      · simp at h

set_option maxRecDepth 100000 in
theorem decodeSextet_encodeSextet :
    ∀ v, v < 64 → decodeSextet (encodeSextet v) = some v ∧ encodeSextet v ≠ '\n' ∧
      encodeSextet v ≠ '\r' := by
  decide

theorem sextets_cons_encode (v : Nat) (h : v < 64) (cs : List Char) :
    sextets (encodeSextet v :: cs) = (sextets cs).map (fun vs => v :: vs) := by
  obtain ⟨h1, h2, h3⟩ := decodeSextet_encodeSextet v h
  simp only [sextets, h2, h3, or_self, ↓reduceIte, h1]
  cases sextets cs <;> rfl

theorem decode_encodeChars (data : List Nat) (h : ∀ b ∈ data, b < 256) :
    (sextets (encodeChars data)).bind decodeQuanta = some data := by
  induction data using encodeChars.induct with
  | case1 a b c rest ih =>
    have ha : a < 256 := h a (by simp)
    have hb : b < 256 := h b (by simp)
    have hc : c < 256 := h c (by simp)
    have ih1 := ih (fun x hx => h x (by simp [hx]))
    simp only [encodeChars]
    rw [sextets_cons_encode _ (by omega), sextets_cons_encode _ (by omega),
      sextets_cons_encode _ (by omega), sextets_cons_encode _ (by omega)]
    cases hs : sextets (encodeChars rest) with
    | none => simp [hs] at ih1
    | some vs =>
      rw [hs] at ih1
      simp only [Option.some_bind] at ih1
      simp only [Option.map_some', Option.some_bind, decodeQuanta, ih1, List.cons.injEq,
        and_true, Option.some.injEq]
      omega
  | case2 a b =>
    have ha : a < 256 := h a (by simp)
    have hb : b < 256 := h b (by simp)
    simp only [encodeChars]
    rw [sextets_cons_encode _ (by omega), sextets_cons_encode _ (by omega),
      sextets_cons_encode _ (by omega)]
    simp only [sextets, Option.map_some', Option.some_bind, decodeQuanta, List.cons.injEq,
      and_true, Option.some.injEq]
    omega
  | case3 a =>
    have ha : a < 256 := h a (by simp)
    simp only [encodeChars]
    rw [sextets_cons_encode _ (by omega), sextets_cons_encode _ (by omega)]
    simp only [sextets, Option.map_some', Option.some_bind, decodeQuanta, List.cons.injEq,
      and_true, Option.some.injEq]
    omega
  | case4 => rfl

/-- Decoding undoes encoding: the model of the decoder accepts what the
encoder of the library produces. -/
theorem DecodeString_EncodeToString (data : List Nat) (h : ∀ b ∈ data, b < 256) :
    RawURLEncoding.DecodeString (RawURLEncoding.EncodeToString data) = some data :=
  decode_encodeChars data h

theorem DecodeString_no_dot (p : String) (data : List Nat)
    (h : RawURLEncoding.DecodeString p = some data) : '.' ∉ p.data := by
  unfold RawURLEncoding.DecodeString at h
  cases hs : sextets p.data with
  | none => simp [hs] at h
  | some v => exact sextets_no_dot _ v hs

/-- Characters are ordered by their code points. -/
theorem le_toNat (a c : Char) : a ≤ c ↔ a.toNat ≤ c.toNat := Iff.rfl


/-- A character that has a value is the character of the alphabet for that
value. -/
theorem encodeSextet_decodeSextet (c : Char) (v : Nat) (h : decodeSextet c = some v) :
    v < 64 ∧ encodeSextet v = c := by
  unfold decodeSextet at h
  simp only [le_toNat] at h
  have hA : 'A'.toNat = 65 := rfl
  have hZ : 'Z'.toNat = 90 := rfl
  have ha : 'a'.toNat = 97 := rfl
  have hz : 'z'.toNat = 122 := rfl
  have h0 : '0'.toNat = 48 := rfl
  have h9 : '9'.toNat = 57 := rfl
  rw [hA, hZ, ha, hz, h0, h9] at h
  split_ifs at h with h1 h2 h3 h4 h5
  · simp only [Option.some.injEq] at h
    subst h
    refine ⟨by omega, ?_⟩
    unfold encodeSextet
    rw [if_pos (by omega)]
    have : 65 + (c.toNat - 65) = c.toNat := by omega
    rw [this, Char.ofNat_toNat]
  · simp only [Option.some.injEq] at h
    subst h
    refine ⟨by omega, ?_⟩
    unfold encodeSextet
    rw [if_neg (by omega), if_pos (by omega)]
    have : 97 + (c.toNat - 97 + 26 - 26) = c.toNat := by omega
    rw [this, Char.ofNat_toNat]
  · simp only [Option.some.injEq] at h
    subst h
    refine ⟨by omega, ?_⟩
    unfold encodeSextet
    rw [if_neg (by omega), if_neg (by omega), if_pos (by omega)]
    have : 48 + (c.toNat - 48 + 52 - 52) = c.toNat := by omega
    rw [this, Char.ofNat_toNat]
  · simp only [Option.some.injEq] at h
    subst h
    exact ⟨by omega, by rw [h4]; rfl⟩
  · simp only [Option.some.injEq] at h
    subst h
    exact ⟨by omega, by rw [h5]; rfl⟩

set_option maxRecDepth 100000 in
theorem encodeSextet_mem : ∀ v, v < 64 → encodeSextet v ∈ encodeURL.data := by decide

set_option maxRecDepth 100000 in
theorem decodeSextet_of_mem : ∀ c ∈ encodeURL.data, (decodeSextet c).isSome = true := by decide

/-- The characters without a value are those outside the alphabet. -/
theorem decodeSextet_eq_none_iff (c : Char) : decodeSextet c = none ↔ c ∉ encodeURL.data := by
  constructor
  · intro h hm
    have := decodeSextet_of_mem c hm
    rw [h] at this
    exact absurd this (by decide)
  · intro h
    cases hd : decodeSextet c with
    | none => rfl
    | some v =>
      obtain ⟨hv, he⟩ := encodeSextet_decodeSextet c v hd
      exact absurd (he ▸ encodeSextet_mem v hv) h

theorem sextets_eq_none_iff (cs : List Char) :
    sextets cs = none ↔ ∃ c ∈ cs, c ≠ '\n' ∧ c ≠ '\r' ∧ c ∉ encodeURL.data := by
  induction cs with
  | nil => simp [sextets]
  | cons c cs ih =>
    simp only [sextets]
    split_ifs with hc
    · rw [ih]
      constructor
      · rintro ⟨d, hd, h⟩
        exact ⟨d, List.mem_cons_of_mem _ hd, h⟩
      · rintro ⟨d, hd, h1, h2, h3⟩
        rcases List.mem_cons.mp hd with e | e
        · subst e
          rcases hc with hc | hc
          · exact absurd hc h1
          · exact absurd hc h2
        · exact ⟨d, e, h1, h2, h3⟩
    · simp only [not_or] at hc
      cases hd : decodeSextet c with
      | none =>
        simp only [true_iff]
        exact ⟨c, List.mem_cons_self _ _, hc.1, hc.2, (decodeSextet_eq_none_iff c).mp hd⟩
      | some v =>
        have hmem : c ∈ encodeURL.data := by
          by_contra hn
          rw [(decodeSextet_eq_none_iff c).mpr hn] at hd
          cases hd
        cases hs : sextets cs with
        | none =>
          simp only [true_iff]
          obtain ⟨d, hd1, h⟩ := ih.mp hs
          exact ⟨d, List.mem_cons_of_mem _ hd1, h⟩
        | some vs =>
          constructor
          · intro h
            cases h
          · rintro ⟨d, hd1, h1, h2, h3⟩
            rcases List.mem_cons.mp hd1 with e | e
            · subst e
              exact absurd hmem h3
            · have : sextets cs = none := ih.mpr ⟨d, e, h1, h2, h3⟩
              rw [hs] at this
              cases this

theorem sextets_length (cs : List Char) (vs : List Nat) (h : sextets cs = some vs) :
    vs.length = (cs.filter (fun c => c != '\n' && c != '\r')).length := by
  induction cs generalizing vs with
  | nil =>
    simp only [sextets, Option.some.injEq] at h
    subst h
    rfl
  | cons c cs ih =>
    simp only [sextets] at h
    split_ifs at h with hc
    · rw [ih vs h, List.filter_cons_of_neg]
      rcases hc with hc | hc <;> subst hc <;> decide
    · simp only [not_or] at hc
      cases hd : decodeSextet c with
      | none => simp [hd] at h
      | some v =>
        cases hs : sextets cs with
        | none => simp [hd, hs] at h
        | some ws =>
          simp only [hd, hs, Option.some.injEq] at h
          subst h
          rw [List.filter_cons_of_pos (by simp [hc.1, hc.2]), List.length_cons, List.length_cons,
            ih ws hs]

theorem decodeQuanta_eq_none_iff (vs : List Nat) : decodeQuanta vs = none ↔ vs.length % 4 = 1 := by
  induction vs using decodeQuanta.induct with
  | case1 a b c d rest ih =>
    simp only [decodeQuanta, Option.map_eq_none', ih, List.length_cons]
    omega
  | case2 a b c => simp [decodeQuanta]
  | case3 a b => simp [decodeQuanta]
  | case4 a => simp [decodeQuanta]
  | case5 => simp [decodeQuanta]

/-- The decoder rejects exactly the strings of `Rejected`. -/
theorem DecodeString_eq_none_iff (s : String) :
    RawURLEncoding.DecodeString s = none ↔ Rejected s := by
  unfold RawURLEncoding.DecodeString Rejected
  cases hs : sextets s.data with
  | none =>
    simp only [Option.none_bind, true_iff]
    exact Or.inl ((sextets_eq_none_iff _).mp hs)
  | some vs =>
    simp only [Option.some_bind, decodeQuanta_eq_none_iff, sextets_length _ _ hs]
    constructor
    · exact Or.inr
    · rintro (h | h)
      · rw [(sextets_eq_none_iff _).mpr h] at hs
        cases hs
      · exact h

/-- The decoder accepts every valid encoding. -/
theorem not_Rejected_of_IsRawURLEncoding (s : String) (h : IsRawURLEncoding s) : ¬ Rejected s := by
  obtain ⟨data, hb, rfl⟩ := h
  rw [← DecodeString_eq_none_iff, DecodeString_EncodeToString data hb]
  exact Option.some_ne_none data

/-- A string that decodes to bytes with another encoding is not a valid
encoding. -/
theorem not_IsRawURLEncoding (s : String) (data : List Nat)
    (hd : RawURLEncoding.DecodeString s = some data)
    (hne : RawURLEncoding.EncodeToString data ≠ s) : ¬ IsRawURLEncoding s := by
  rintro ⟨data1, hb, rfl⟩
  rw [DecodeString_EncodeToString data1 hb] at hd
  cases hd
  exact hne rfl

end base64

namespace Go

theorem sat64_neg_iff (x : Int) : sat64 x < 0 ↔ x < 0 := by
  unfold sat64 minInt64 maxInt64
  split_ifs <;> omega

theorem sat64_lt_iff (x m : Int) (hx : 0 ≤ x) (hm : m ≤ maxInt64) : sat64 x < m ↔ x < m := by
  unfold sat64 minInt64 maxInt64 at *
  split_ifs <;> omega

end Go

/-! ## Token validity -/

namespace tokenrefresher

theorem isTokenValid_of_parts (lib : Go.Lib) (now : Int) (token : String) (minExp : Int)
    (h p s : String) (hsplit : strings.Split token '.' = [h, p, s]) :
    isTokenValid lib now token minExp =
      match base64.RawURLEncoding.DecodeString p with
      | none => false
      | some data =>
        match lib.Unmarshal data with
        | none => false
        | some claims =>
          match claims.lookup "exp" with
          | some (Go.Value.float64 exp) =>
            decide (0 ≤ time.Until now (time.Unix (lib.int64 exp) 0) ∧
              minExp ≤ time.Until now (time.Unix (lib.int64 exp) 0))
          | _ => false := by
  unfold isTokenValid
  dsimp only
  split
  · rename_i hlen
    simp [hsplit] at hlen
  simp only [List.get_eq_getElem, hsplit, List.getElem_cons_succ, List.getElem_cons_zero]
  cases base64.RawURLEncoding.DecodeString p with
  | none => rfl
  | some data =>
    dsimp only
    cases lib.Unmarshal data with
    | none => rfl
    | some claims =>
      dsimp only
      cases claims.lookup "exp" with
      | none => rfl
      | some v =>
        cases v with
        | float64 q =>
          dsimp only
          by_cases h1 : time.Until now (time.Unix (lib.int64 q) 0) < 0
          · simp [h1]
          · by_cases h2 : time.Until now (time.Unix (lib.int64 q) 0) < minExp
            · simp [h1, h2]
            · simp only [h1, h2, ↓reduceIte]
              symm
              simp only [decide_eq_true_eq]
              omega
        | _ => rfl

/-- C1 (as amended): for every token `h.p.s` whose middle segment decodes, as
unpadded base64url, to a JSON object with a numeric `exp` (so in particular
when it is the encoding of such an object, `base64.DecodeString_EncodeToString`),
every reading `now` of the clock and every `minExp` in the range of a
`Duration`, `isTokenValid` returns true if and only if the token has not
expired and `expiry - now ≥ minExp`, where `expiry` is the instant `int64(exp)`
seconds after the epoch. -/
theorem isTokenValid_iff (lib : Go.Lib) (now minExp : Int) (h p s : String) (data : List Nat)
    (claims : List (String × Go.Value)) (exp : ℚ)
    (hh : '.' ∉ h.data) (hs : '.' ∉ s.data)
    (hp : base64.RawURLEncoding.DecodeString p = some data)
    (hdata : lib.Unmarshal data = some claims)
    (hexp : claims.lookup "exp" = some (Go.Value.float64 exp))
    (hmin : minExp ≤ Go.maxInt64) :
    isTokenValid lib now (h ++ "." ++ p ++ "." ++ s) minExp = true ↔
      0 ≤ time.Unix (lib.int64 exp) 0 - now ∧ minExp ≤ time.Unix (lib.int64 exp) 0 - now := by
  rw [isTokenValid_of_parts lib now _ minExp h p s
    (strings.Split_three h p s hh (base64.DecodeString_no_dot p data hp) hs)]
  simp only [hp, hdata, hexp, decide_eq_true_eq, time.Until]
  constructor
  · rintro ⟨h0, h1⟩
    have h0x : 0 ≤ time.Unix (lib.int64 exp) 0 - now := by
      have := Go.sat64_neg_iff (time.Unix (lib.int64 exp) 0 - now)
      omega
    have := Go.sat64_lt_iff (time.Unix (lib.int64 exp) 0 - now) minExp h0x hmin
    omega
  · rintro ⟨h0, h1⟩
    have := Go.sat64_neg_iff (time.Unix (lib.int64 exp) 0 - now)
    have := Go.sat64_lt_iff (time.Unix (lib.int64 exp) 0 - now) minExp h0 hmin
    omega

/-- C1, witness: the token that the tests build for the expiry at second
1700007200, checked at second 1700000000 against a minimum of 90 minutes. -/
theorem isTokenValid_iff_witness :
    base64.RawURLEncoding.EncodeToString Sample.claims = "eyJleHAiOjE3MDAwMDcyMDB9" ∧
    (isTokenValid Sample.lib 1700000000000000000
        ("" ++ "." ++ base64.RawURLEncoding.EncodeToString Sample.claims ++ "." ++ "")
        5400000000000 = true ↔
      0 ≤ time.Unix (Sample.lib.int64 1700007200) 0 - 1700000000000000000 ∧
        5400000000000 ≤ time.Unix (Sample.lib.int64 1700007200) 0 - 1700000000000000000) ∧
    isTokenValid Sample.lib 1700000000000000000 Sample.token 5400000000000 = true :=
  ⟨by decide,
    isTokenValid_iff Sample.lib 1700000000000000000 5400000000000 ""
      (base64.RawURLEncoding.EncodeToString Sample.claims) "" Sample.claims
      [("exp", Go.Value.float64 1700007200)] 1700007200
      (by decide) (by decide) (base64.DecodeString_EncodeToString Sample.claims (by decide))
      (by rfl) (by rfl) (by decide),
    by decide⟩

/-- C1, counterexample.  The token `Sample.token` is well formed and expires
at second 1700007200; one second later, with a minimum of minus two seconds,
`expiry - now ≥ minExp` holds but `isTokenValid` returns false, because the
token has expired.  The token `Sample.fractional` has the `exp` 1700007200.5;
at second 1700007200.2, with the minimum 0, the instant `exp` lies 0.3 seconds
ahead but `isTokenValid` returns false, because `int64(exp)` drops the
fraction. -/
theorem isTokenValid_rejects_where_claimed_valid :
    (((base64.RawURLEncoding.DecodeString "eyJleHAiOjE3MDAwMDcyMDB9").bind Sample.lib.Unmarshal
        = some [("exp", Go.Value.float64 1700007200)]) ∧
      Sample.lib.int64 1700007200 = 1700007200 ∧
      isTokenValid Sample.lib 1700007201000000000 Sample.token (-2000000000) = false ∧
      time.Unix 1700007200 0 - 1700007201000000000 ≥ -2000000000) ∧
    (((base64.RawURLEncoding.DecodeString "eyJleHAiOjE3MDAwMDcyMDAuNX0").bind Sample.lib.Unmarshal
        = some [("exp", Go.Value.float64 (mkRat 17000072005 10))]) ∧
      isTokenValid Sample.lib 1700007200200000000 Sample.fractional 0 = false ∧
      (mkRat 17000072005 10 : ℚ) * 1000000000 - 1700007200200000000 ≥ 0) := by
  refine ⟨⟨by rfl, by decide, by decide, by decide⟩, by rfl, by decide, ?_⟩
  have h : (mkRat 17000072005 10 : ℚ) = 3400014401 / 2 := by
    rw [Rat.mkRat_eq_div]
    norm_num
  rw [h]
  norm_num

/-- C2 (as amended): `isTokenValid` is a total function that returns false,
whatever the clock and `minExp`, on the empty string and on every malformed
token: on a string that does not split at `.` into exactly three segments, on
a middle segment that the decoder rejects, on bytes that `json.Unmarshal`
rejects, and on an object without a numeric `exp`.  The middle segments that
the decoder rejects are exactly those that, once the characters `\r` and `\n`
are left out, hold a character outside the URL-safe alphabet or have a length
of 1 modulo 4; none of them is valid unpadded base64url. -/
theorem isTokenValid_malformed (lib : Go.Lib) (now minExp : Int) :
    isTokenValid lib now "" minExp = false ∧
    (∀ token, Malformed lib token → isTokenValid lib now token minExp = false) ∧
    (∀ p, base64.RawURLEncoding.DecodeString p = none ↔ base64.Rejected p) ∧
    (∀ p, base64.Rejected p → ¬ base64.IsRawURLEncoding p) := by
  have key : ∀ token, Malformed lib token → isTokenValid lib now token minExp = false := by
    intro token hm
    rcases hm with hlen | ⟨h, p, s, hsplit, hrest⟩
    · unfold isTokenValid
      simp [hlen]
    · rw [isTokenValid_of_parts lib now token minExp h p s hsplit]
      rcases hrest with hd | ⟨data, hd, hrest⟩
      · simp [(base64.DecodeString_eq_none_iff p).mpr hd]
      · rcases hrest with hu | ⟨claims, hu, hl⟩
        · simp [hd, hu]
        · cases hc : claims.lookup "exp" with
          | none => simp [hd, hu, hc]
          | some v =>
            cases v with
            | float64 q => exact absurd hc (hl q)
            | _ => simp [hd, hu, hc]
  exact ⟨key "" (Or.inl (by decide)), key, base64.DecodeString_eq_none_iff,
    fun p hr hv => base64.not_Rejected_of_IsRawURLEncoding p hv hr⟩

/-- C2, witness: the token `thisisnotatoken` of the tests has one segment;
the middle segment of the second token is padded, and `=` is outside the
alphabet; that of the third has five characters; the middle segment
`notb64string` of the tests decodes to nine bytes that are no JSON document;
and the last token is read as an object whose `exp` is a string. -/
theorem isTokenValid_malformed_witness :
    isTokenValid Sample.lib 1700000000000000000 "thisisnotatoken" 5400000000000 = false ∧
    isTokenValid Sample.lib 1700000000000000000 ".eyJleHAiOjE3MDAwMDcyMDB9=." 5400000000000
      = false ∧
    isTokenValid Sample.lib 1700000000000000000 ".eyJle." 5400000000000 = false ∧
    isTokenValid Sample.lib 1700000000000000000 ".notb64string." 5400000000000 = false ∧
    isTokenValid Sample.stringExpLib 1700000000000000000 Sample.token 5400000000000 = false :=
  ⟨(isTokenValid_malformed Sample.lib 1700000000000000000 5400000000000).2.1 "thisisnotatoken"
      (Or.inl (by decide)),
    (isTokenValid_malformed Sample.lib 1700000000000000000 5400000000000).2.1
      ".eyJleHAiOjE3MDAwMDcyMDB9=."
      (Or.inr ⟨"", "eyJleHAiOjE3MDAwMDcyMDB9=", "", by decide,
        Or.inl (Or.inl ⟨'=', by decide, by decide, by decide, by decide⟩)⟩),
    (isTokenValid_malformed Sample.lib 1700000000000000000 5400000000000).2.1 ".eyJle."
      (Or.inr ⟨"", "eyJle", "", by decide, Or.inl (Or.inr (by decide))⟩),
    (isTokenValid_malformed Sample.lib 1700000000000000000 5400000000000).2.1 ".notb64string."
      (Or.inr ⟨"", "notb64string", "", by decide,
        Or.inr ⟨[158, 139, 91, 235, 139, 45, 174, 41, 224], by decide, Or.inl (by rfl)⟩⟩),
    (isTokenValid_malformed Sample.stringExpLib 1700000000000000000 5400000000000).2.1 Sample.token
      (Or.inr ⟨"", "eyJleHAiOjE3MDAwMDcyMDB9", "", by decide,
        Or.inr ⟨Sample.claims, by decide,
          Or.inr ⟨[("exp", Go.Value.string "1700007200")], by rfl, fun v h => by cases h⟩⟩⟩)⟩

/-- C2, counterexample.  The middle segment of `Sample.folded` holds a line
break, a character outside the URL-safe alphabet, and that of `Sample.loose`
ends in a character whose unused bits are not zero: neither is the unpadded
base64url encoding of any bytes.  The decoder skips the line break and
ignores the unused bits, and `isTokenValid` returns true on both tokens. -/
theorem isTokenValid_accepts_invalid_base64url :
    (strings.Split Sample.folded '.' = ["", "eyJleHAi\nOjE3MDAwMDcyMDB9", ""] ∧
      '\n' ∈ "eyJleHAi\nOjE3MDAwMDcyMDB9".data ∧ '\n' ∉ base64.encodeURL.data ∧
      ¬ base64.IsRawURLEncoding "eyJleHAi\nOjE3MDAwMDcyMDB9" ∧
      isTokenValid Sample.lib 1700000000000000000 Sample.folded 5400000000000 = true) ∧
    (strings.Split Sample.loose '.' = ["", "eyJleHAiOjE3MDAwMDcyMDAuNX1", ""] ∧
      ¬ base64.IsRawURLEncoding "eyJleHAiOjE3MDAwMDcyMDAuNX1" ∧
      isTokenValid Sample.lib 1700000000000000000 Sample.loose 5400000000000 = true) :=
  ⟨⟨by decide, by decide, by decide,
      base64.not_IsRawURLEncoding _ Sample.claims (by decide) (by decide), by decide⟩,
    by decide,
    base64.not_IsRawURLEncoding _
      [123, 34, 101, 120, 112, 34, 58, 49, 55, 48, 48, 48, 48, 55, 50, 48, 48, 46, 53, 125]
      (by decide) (by decide),
    by decide⟩

end tokenrefresher

/-! ## Retry -/

namespace retry

section
variable {σ ε : Type} (doSleep : Int → σ → σ) (sleep : Int) (f : σ → (Option ε × Bool) × σ)

theorem wrap64_pred (a : Int) (h1 : 1 ≤ a) (h2 : a ≤ Go.maxInt64) : Go.wrap64 (a - 1) = a - 1 := by
  unfold Go.wrap64 Go.maxInt64 at *
  omega

theorem stateBefore_succ (s : σ) (i : Nat) :
    stateBefore doSleep sleep f s (i + 1) =
      stateBefore doSleep sleep f (doSleep sleep (f s).2) i := by
  induction i with
  | zero => rfl
  | succ i ih =>
    show doSleep sleep (f (stateBefore doSleep sleep f s (i + 1))).2 = _
    rw [ih]
    rfl

theorem outcome_succ (s : σ) (i : Nat) :
    outcome doSleep sleep f s (i + 1) = outcome doSleep sleep f (doSleep sleep (f s).2) i := by
  unfold outcome
  rw [stateBefore_succ]

/-- After an invocation that succeeds or fails for good, `Retry` returns. -/
theorem Retry_of_final (frames : Nat) (a : Int) (s : σ)
    (h : (f s).1.1 = none ∨ (f s).1.2 = false) :
    Retry doSleep frames a sleep f s = (Go.Exit.returned (f s).1.1, (f s).2) := by
  rw [Retry]
  rcases hf : f s with ⟨⟨o, b⟩, s1⟩
  rw [hf] at h
  cases o with
  | none => rfl
  | some e =>
    have hb : b = false := by simpa using h
    subst hb
    rfl

/-- After a failure with no attempt left, `Retry` returns. -/
theorem Retry_of_last (frames : Nat) (a : Int) (s : σ) (h : ¬ 0 < Go.wrap64 (a - 1)) :
    Retry doSleep frames a sleep f s = (Go.Exit.returned (f s).1.1, (f s).2) := by
  rw [Retry]
  rcases f s with ⟨⟨o, b⟩, s1⟩
  cases o with
  | none => rfl
  | some e => cases b <;> simp [h]

/-- After a retryable failure with attempts left and room on the stack,
`Retry` sleeps and tries again. -/
theorem Retry_of_retry (frames : Nat) (a : Int) (s : σ) (e : ε) (hf : (f s).1 = (some e, true))
    (h : 0 < Go.wrap64 (a - 1)) :
    Retry doSleep (frames + 1) a sleep f s =
      Retry doSleep frames (Go.wrap64 (a - 1)) sleep f (doSleep sleep (f s).2) := by
  rw [Retry]
  rcases hfs : f s with ⟨⟨o, b⟩, s1⟩
  rw [hfs] at hf
  simp only [Prod.mk.injEq] at hf
  obtain ⟨ho, hb⟩ := hf
  subst ho hb
  simp [h]

/-- After a retryable failure with attempts left and no room on the stack,
`Retry` sleeps and the process is aborted. -/
theorem Retry_of_no_room (a : Int) (s : σ) (e : ε) (hf : (f s).1 = (some e, true))
    (h : 0 < Go.wrap64 (a - 1)) :
    Retry doSleep 0 a sleep f s = (Go.Exit.stackOverflow, doSleep sleep (f s).2) := by
  rw [Retry]
  rcases hfs : f s with ⟨⟨o, b⟩, s1⟩
  rw [hfs] at hf
  simp only [Prod.mk.injEq] at hf
  obtain ⟨ho, hb⟩ := hf
  subst ho hb
  simp [h]

/-- The run of `Retry`: if the first `k - 1` invocations fail and may be
retried, the stack has room for the `k - 1` nested calls, and the `k`-th
invocation either succeeds, or fails for good, or is the last attempt, then
`Retry` returns the outcome of the `k`-th invocation. -/
theorem Retry_stops_at (k : Nat) :
    ∀ (frames : Nat) (a : Int) (s : σ), 1 ≤ k → (k : Int) ≤ a → a ≤ Go.maxInt64 →
      k ≤ frames + 1 →
      (∀ i, i + 1 < k → ∃ e, outcome doSleep sleep f s i = (some e, true)) →
      ((outcome doSleep sleep f s (k - 1)).1 = none ∨
        (outcome doSleep sleep f s (k - 1)).2 = false ∨ (k : Int) = a) →
      Retry doSleep frames a sleep f s =
        (Go.Exit.returned (outcome doSleep sleep f s (k - 1)).1,
          (f (stateBefore doSleep sleep f s (k - 1))).2) := by
  induction k with
  | zero => intro frames a s h; omega
  | succ k ih =>
    intro frames a s _ hka ha hroom hfail hlast
    rcases Nat.eq_zero_or_pos k with hk0 | hkpos
    · subst hk0
      simp only [Nat.zero_add, Nat.sub_self, outcome, stateBefore] at hlast ⊢
      rcases hlast with h | h | h
      · exact Retry_of_final doSleep sleep f frames a s (Or.inl h)
      · exact Retry_of_final doSleep sleep f frames a s (Or.inr h)
      · apply Retry_of_last
        rw [← h]
        decide
    · obtain ⟨e, he⟩ := hfail 0 (by omega)
      have hw : Go.wrap64 (a - 1) = a - 1 := wrap64_pred a (by omega) ha
      have he0 : (f s).1 = (some e, true) := he
      obtain ⟨frames1, rfl⟩ : ∃ frames1, frames = frames1 + 1 := ⟨frames - 1, by omega⟩
      rw [Retry_of_retry doSleep sleep f frames1 a s e he0 (by rw [hw]; omega), hw]
      have hk1 : k + 1 - 1 = (k - 1) + 1 := by omega
      rw [hk1, outcome_succ, stateBefore_succ]
      apply ih frames1 (a - 1) _ hkpos (by omega) (by omega) (by omega)
      · intro i hi
        rw [← outcome_succ]
        exact hfail (i + 1) (by omega)
      · rw [← outcome_succ, ← hk1]
        rcases hlast with h | h | h
        · exact Or.inl h
        · exact Or.inr (Or.inl h)
        · exact Or.inr (Or.inr (by omega))

/-- The run of `Retry` on a stack that is too small: if the stack has room for
`frames` nested calls, the first `frames + 1` invocations fail and may be
retried, and an attempt is left after them, then the process is aborted after
`frames + 1` invocations, each followed by a sleep. -/
theorem Retry_overflows (frames : Nat) :
    ∀ (a : Int) (s : σ), (frames : Int) + 2 ≤ a → a ≤ Go.maxInt64 →
      (∀ i, i ≤ frames → ∃ e, outcome doSleep sleep f s i = (some e, true)) →
      Retry doSleep frames a sleep f s =
        (Go.Exit.stackOverflow, stateBefore doSleep sleep f s (frames + 1)) := by
  induction frames with
  | zero =>
    intro a s hfa ha hfail
    obtain ⟨e, he⟩ := hfail 0 le_rfl
    have hw : Go.wrap64 (a - 1) = a - 1 := wrap64_pred a (by omega) ha
    have he0 : (f s).1 = (some e, true) := he
    rw [Retry_of_no_room doSleep sleep f a s e he0 (by rw [hw]; omega)]
    rfl
  | succ frames ih =>
    intro a s hfa ha hfail
    obtain ⟨e, he⟩ := hfail 0 (by omega)
    have hw : Go.wrap64 (a - 1) = a - 1 := wrap64_pred a (by omega) ha
    have he0 : (f s).1 = (some e, true) := he
    rw [Retry_of_retry doSleep sleep f frames a s e he0 (by rw [hw]; omega), hw,
      stateBefore_succ]
    apply ih (a - 1) _ (by push_cast at hfa; omega) (by omega)
    intro i hi
    rw [← outcome_succ]
    exact hfail (i + 1) (by omega)

/-- The state of an operation that counts its invocations. -/
theorem stateBefore_of_counter (g : Nat → (Option ε × Bool) × Nat) (hg : ∀ n, (g n).2 = n + 1)
    (n i : Nat) : stateBefore (fun _ (m : Nat) => m) sleep g n i = n + i := by
  induction i with
  | zero => rfl
  | succ i ih =>
    show (g (stateBefore (fun _ (m : Nat) => m) sleep g n i)).2 = _
    rw [ih, hg]
    omega

theorem stateBefore_metered (s : σ) (c l i : Nat) :
    stateBefore (meteredSleep doSleep) sleep (metered f) ⟨s, c, l⟩ i =
      ⟨stateBefore doSleep sleep f s i, c + i, l + i⟩ := by
  induction i with
  | zero => rfl
  | succ i ih =>
    show meteredSleep doSleep sleep (metered f (stateBefore (meteredSleep doSleep) sleep
      (metered f) ⟨s, c, l⟩ i)).2 = _
    rw [ih]
    simp only [meteredSleep, metered, stateBefore]
    rfl

theorem outcome_metered (s : σ) (c l i : Nat) :
    outcome (meteredSleep doSleep) sleep (metered f) ⟨s, c, l⟩ i = outcome doSleep sleep f s i := by
  unfold outcome
  rw [stateBefore_metered]
  rfl

end

/-- C4 (as amended): for every `maxAttempts ≥ 1` for which the stack has room for the
`maxAttempts - 1` nested calls, and every operation `f` whose invocations all
return a retryable failure, `Retry(maxAttempts, sleep, f)`, and `Retryer.Do`
with the same settings, invokes `f` exactly `maxAttempts` times, sleeps
exactly `maxAttempts - 1` times, and returns the failure of the last
invocation. -/
theorem Retry_exhausts_attempts {σ ε : Type} (doSleep : Int → σ → σ) (sleep : Int)
    (f : σ → (Option ε × Bool) × σ) (s : σ) (frames maxAttempts : Nat)
    (h1 : 1 ≤ maxAttempts) (h2 : (maxAttempts : Int) ≤ Go.maxInt64)
    (hroom : maxAttempts - 1 ≤ frames)
    (hfail : ∀ i, i < maxAttempts → ∃ e, outcome doSleep sleep f s i = (some e, true)) :
    Retry (meteredSleep doSleep) frames maxAttempts sleep (metered f) ⟨s, 0, 0⟩ =
      (Go.Exit.returned (outcome doSleep sleep f s (maxAttempts - 1)).1,
        ⟨(f (stateBefore doSleep sleep f s (maxAttempts - 1))).2, maxAttempts, maxAttempts - 1⟩) ∧
    Retryer.Do ⟨maxAttempts, sleep⟩ (meteredSleep doSleep) frames (metered f) ⟨s, 0, 0⟩ =
      Retry (meteredSleep doSleep) frames maxAttempts sleep (metered f) ⟨s, 0, 0⟩ ∧
    (∃ e, (outcome doSleep sleep f s (maxAttempts - 1)).1 = some e) ∧
    Retry doSleep frames maxAttempts sleep f s =
      (Go.Exit.returned (outcome doSleep sleep f s (maxAttempts - 1)).1,
        (f (stateBefore doSleep sleep f s (maxAttempts - 1))).2) := by
  refine ⟨?_, rfl, ?_, ?_⟩
  · rw [Retry_stops_at (meteredSleep doSleep) sleep (metered f) maxAttempts frames maxAttempts
      ⟨s, 0, 0⟩ h1 le_rfl h2 (by omega) ?_ (Or.inr (Or.inr rfl))]
    · rw [outcome_metered, stateBefore_metered]
      simp only [metered, Nat.zero_add]
      congr 2
      omega
    · intro i hi
      rw [outcome_metered]
      exact hfail i (by omega)
  · obtain ⟨e, he⟩ := hfail (maxAttempts - 1) (by omega)
    exact ⟨e, by rw [he]⟩
  · exact Retry_stops_at doSleep sleep f maxAttempts frames maxAttempts s h1 le_rfl h2 (by omega)
      (fun i hi => hfail i (by omega)) (Or.inr (Or.inr rfl))

/-- C4, witness: three attempts at an operation that always fails. -/
theorem Retry_exhausts_attempts_witness :
    Retry (meteredSleep (fun _ (s : Nat) => s)) 4194304 3 20000000000
        (metered Sample.alwaysFailing) ⟨0, 0, 0⟩ =
      (Go.Exit.returned (some "attempt 2 failed"), ⟨3, 3, 2⟩) :=
  (Retry_exhausts_attempts (fun _ (s : Nat) => s) 20000000000 Sample.alwaysFailing 0 4194304 3
    (by decide) (by decide) (by decide) (fun i _ => ⟨_, rfl⟩)).1

/-- C4, counterexample: ten million attempts at an operation that always
fails, on a stack with room for 4194304 nested calls of `Retry`.  Every
invocation returns a retryable failure, yet `Retry`, and `Retryer.Do` with the
same settings, returns no failure: the process is aborted by a stack overflow
after 4194305 invocations and as many sleeps. -/
theorem Retry_overflows_when_exhausting :
    (∀ s, ∃ e, (Sample.alwaysFailing s).1 = (some e, true)) ∧
    Retry (meteredSleep (fun _ (s : Nat) => s)) 4194304 10000000 20000000000
        (metered Sample.alwaysFailing) ⟨0, 0, 0⟩ =
      (Go.Exit.stackOverflow, ⟨4194305, 4194305, 4194305⟩) ∧
    Retryer.Do ⟨10000000, 20000000000⟩ (meteredSleep (fun _ (s : Nat) => s)) 4194304
        (metered Sample.alwaysFailing) ⟨0, 0, 0⟩ =
      (Go.Exit.stackOverflow, ⟨4194305, 4194305, 4194305⟩) := by
  have h : Retry (meteredSleep (fun _ (s : Nat) => s)) 4194304 10000000 20000000000
      (metered Sample.alwaysFailing) ⟨0, 0, 0⟩ =
      (Go.Exit.stackOverflow, ⟨4194305, 4194305, 4194305⟩) := by
    rw [Retry_overflows (meteredSleep (fun _ (s : Nat) => s)) 20000000000
      (metered Sample.alwaysFailing) 4194304 10000000 ⟨0, 0, 0⟩ (by decide) (by decide)
      (fun i _ => ⟨_, rfl⟩), stateBefore_metered,
      stateBefore_of_counter 20000000000 Sample.alwaysFailing (fun _ => rfl)]
  exact ⟨fun s => ⟨_, rfl⟩, h, h⟩

/-- C5 (as amended): for every `maxAttempts ≥ 1` and `1 ≤ k ≤ maxAttempts` for which the
stack has room for the `k - 1` nested calls, if the first `k - 1` invocations
of `f` return retryable failures and the `k`-th returns no failure or a
failure that is not retryable, then `Retry(maxAttempts, sleep, f)` invokes `f`
exactly `k` times, sleeps `k - 1` times and returns the outcome of the `k`-th
invocation; a failure of the first invocation that is not retryable is
returned after one invocation and no sleep, whatever the stack. -/
theorem Retry_returns_at {σ ε : Type} (doSleep : Int → σ → σ) (sleep : Int)
    (f : σ → (Option ε × Bool) × σ) (s : σ) (frames maxAttempts k : Nat)
    (hk : 1 ≤ k) (hkn : k ≤ maxAttempts) (h2 : (maxAttempts : Int) ≤ Go.maxInt64)
    (hroom : k - 1 ≤ frames)
    (hfail : ∀ i, i + 1 < k → ∃ e, outcome doSleep sleep f s i = (some e, true))
    (hlast : (outcome doSleep sleep f s (k - 1)).1 = none ∨
      (outcome doSleep sleep f s (k - 1)).2 = false) :
    Retry (meteredSleep doSleep) frames maxAttempts sleep (metered f) ⟨s, 0, 0⟩ =
      (Go.Exit.returned (outcome doSleep sleep f s (k - 1)).1,
        ⟨(f (stateBefore doSleep sleep f s (k - 1))).2, k, k - 1⟩) ∧
    Retry doSleep frames maxAttempts sleep f s =
      (Go.Exit.returned (outcome doSleep sleep f s (k - 1)).1,
        (f (stateBefore doSleep sleep f s (k - 1))).2) ∧
    (∀ e room, (f s).1 = (some e, false) →
      Retry (meteredSleep doSleep) room maxAttempts sleep (metered f) ⟨s, 0, 0⟩ =
        (Go.Exit.returned (some e), ⟨(f s).2, 1, 0⟩)) := by
  have hl : (outcome doSleep sleep f s (k - 1)).1 = none ∨
      (outcome doSleep sleep f s (k - 1)).2 = false ∨ (k : Int) = maxAttempts := by
    rcases hlast with h | h
    · exact Or.inl h
    · exact Or.inr (Or.inl h)
  refine ⟨?_, ?_, ?_⟩
  · rw [Retry_stops_at (meteredSleep doSleep) sleep (metered f) k frames maxAttempts ⟨s, 0, 0⟩
      hk (by exact_mod_cast hkn) h2 (by omega) ?_ ?_]
    · rw [outcome_metered, stateBefore_metered]
      simp only [metered, Nat.zero_add]
      congr 2
      omega
    · intro i hi
      rw [outcome_metered]
      exact hfail i hi
    · rw [outcome_metered]
      exact hl
  · exact Retry_stops_at doSleep sleep f k frames maxAttempts s hk (by exact_mod_cast hkn) h2
      (by omega) hfail hl
  · intro e room he
    rw [Retry_of_final (meteredSleep doSleep) sleep (metered f) room maxAttempts ⟨s, 0, 0⟩
      (Or.inr (by simp [metered, he]))]
    simp [metered, he]

/-- C5, witness: five attempts allowed, the third invocation succeeds. -/
theorem Retry_returns_at_witness :
    Retry (meteredSleep (fun _ (s : Nat) => s)) 4194304 5 20000000000
        (metered Sample.thirdTimeLucky) ⟨0, 0, 0⟩ =
      (Go.Exit.returned none, ⟨3, 3, 2⟩) :=
  (Retry_returns_at (fun _ (s : Nat) => s) 20000000000 Sample.thirdTimeLucky 0 4194304 5 3
    (by decide) (by decide) (by decide) (by decide)
    (fun i hi => ⟨"try again", by
      have : i = 0 ∨ i = 1 := by omega
      rcases this with h | h <;> subst h <;> rfl⟩)
    (Or.inl rfl)).1

/-- The state of `Sample.luckyAt` counts its invocations. -/
theorem luckyAt_counts (n m : Nat) : (Sample.luckyAt n m).2 = m + 1 := by
  unfold Sample.luckyAt
  split <;> rfl

/-- The invocations of `Sample.luckyAt n` fail and may be retried, but for
the `n`-th, which succeeds. -/
theorem outcome_luckyAt (sleep : Int) (n i : Nat) :
    outcome (fun _ (s : Nat) => s) sleep (Sample.luckyAt n) 0 i =
      if i + 1 = n then (none, false) else (some "try again", true) := by
  unfold outcome
  rw [stateBefore_of_counter sleep (Sample.luckyAt n) (luckyAt_counts n), Nat.zero_add]
  unfold Sample.luckyAt
  split <;> rfl

/-- C5, counterexample: ten million attempts allowed at an operation whose
invocation number five million is the first to succeed, on a stack with room
for 4194304 nested calls of `Retry`.  The earlier invocations return retryable
failures, yet `Retry` does not return the outcome of that invocation, which is
never made: the process is aborted by a stack overflow after 4194305
invocations. -/
theorem Retry_overflows_before_success :
    (∀ i, i + 1 < 5000000 →
      outcome (fun _ (s : Nat) => s) 20000000000 (Sample.luckyAt 5000000) 0 i =
        (some "try again", true)) ∧
    outcome (fun _ (s : Nat) => s) 20000000000 (Sample.luckyAt 5000000) 0 (5000000 - 1) =
      (none, false) ∧
    Retry (meteredSleep (fun _ (s : Nat) => s)) 4194304 10000000 20000000000
        (metered (Sample.luckyAt 5000000)) ⟨0, 0, 0⟩ =
      (Go.Exit.stackOverflow, ⟨4194305, 4194305, 4194305⟩) := by
  have hout : ∀ i, i + 1 < 5000000 →
      outcome (fun _ (s : Nat) => s) 20000000000 (Sample.luckyAt 5000000) 0 i =
        (some "try again", true) :=
    fun i hi => (outcome_luckyAt 20000000000 5000000 i).trans (if_neg (by omega))
  refine ⟨hout, (outcome_luckyAt 20000000000 5000000 (5000000 - 1)).trans (if_pos (by decide)), ?_⟩
  rw [Retry_overflows (meteredSleep (fun _ (s : Nat) => s)) 20000000000
    (metered (Sample.luckyAt 5000000)) 4194304 10000000 ⟨0, 0, 0⟩ (by decide) (by decide)
    (fun i hi => ⟨"try again", by rw [outcome_metered]; exact hout i (by omega)⟩),
    stateBefore_metered,
    stateBefore_of_counter 20000000000 (Sample.luckyAt 5000000) (luckyAt_counts 5000000)]

end retry

/-! ## The file system model -/

namespace os

theorem FS.lstat_cons (fs : FS) (k name : String) (v : Node) :
    FS.lstat ((k, v) :: fs) name = if name = k then some v else fs.lstat name := by
  unfold FS.lstat
  rw [List.lookup_cons]
  by_cases h : name = k
  · simp [h]
  · have : (name == k) = false := by simpa using h
    simp [h, this]

theorem FS.unlink_cons (fs : FS) (k name : String) (v : Node) :
    FS.unlink ((k, v) :: fs) name = if k = name then fs.unlink name else (k, v) :: fs.unlink name := by
  unfold FS.unlink
  by_cases h : k = name
  · simp [List.filter_cons, h]
  · simp [List.filter_cons, h]

theorem FS.lstat_unlink_self (fs : FS) (name : String) : (fs.unlink name).lstat name = none := by
  induction fs with
  | nil => rfl
  | cons e fs ih =>
    obtain ⟨k, v⟩ := e
    rw [FS.unlink_cons]
    by_cases h : k = name
    · simpa [h] using ih
    · have h1 : name ≠ k := fun e1 => h e1.symm
      simpa [h, FS.lstat_cons, h1] using ih

theorem FS.lstat_unlink_of_ne (fs : FS) (name other : String) (h : other ≠ name) :
    (fs.unlink name).lstat other = fs.lstat other := by
  induction fs with
  | nil => rfl
  | cons e fs ih =>
    obtain ⟨k, v⟩ := e
    rw [FS.unlink_cons, FS.lstat_cons]
    by_cases h1 : k = name
    · have h2 : other ≠ k := by rw [h1]; exact h
      simpa [h1, h] using ih
    · by_cases h2 : other = k
      · simp [h1, FS.lstat_cons, h2]
      · simpa [h1, FS.lstat_cons, h2] using ih

theorem FS.unlink_of_lstat_none (fs : FS) (name : String) (h : fs.lstat name = none) :
    fs.unlink name = fs := by
  induction fs with
  | nil => rfl
  | cons e fs ih =>
    obtain ⟨k, v⟩ := e
    rw [FS.lstat_cons] at h
    by_cases h1 : name = k
    · simp [h1] at h
    · have h4 : k ≠ name := fun e1 => h1 e1.symm
      rw [if_neg h1] at h
      rw [FS.unlink_cons, if_neg h4, ih h]

theorem FS.lstat_set_self (fs : FS) (name : String) (n : Node) :
    (fs.set name n).lstat name = some n := by
  simp [FS.set, FS.lstat_cons]

theorem FS.lstat_set_of_ne (fs : FS) (name other : String) (n : Node) (h : other ≠ name) :
    (fs.set name n).lstat other = fs.lstat other := by
  simp [FS.set, FS.lstat_cons, h, FS.lstat_unlink_of_ne fs name other h]

theorem FS.unlink_unlink (fs : FS) (a b : String) :
    (fs.unlink a).unlink b = (fs.unlink b).unlink a := by
  unfold FS.unlink
  rw [List.filter_filter, List.filter_filter]
  congr 1
  funext e
  exact Bool.and_comm _ _

theorem FS.unlink_idem (fs : FS) (a : String) : (fs.unlink a).unlink a = fs.unlink a :=
  FS.unlink_of_lstat_none _ _ (FS.lstat_unlink_self fs a)

theorem FS.unlink_set_self (fs : FS) (name : String) (n : Node) :
    (fs.set name n).unlink name = fs.unlink name := by
  simp [FS.set, FS.unlink_cons, FS.unlink_idem]

theorem FS.length_unlink_le (fs : FS) (name : String) : (fs.unlink name).length ≤ fs.length :=
  List.length_filter_le _ _

theorem FS.length_unlink_lt (fs : FS) (name : String) (h : (fs.lstat name).isSome) :
    (fs.unlink name).length < fs.length := by
  induction fs with
  | nil => simp [FS.lstat] at h
  | cons e fs ih =>
    obtain ⟨k, v⟩ := e
    rw [FS.unlink_cons]
    by_cases h1 : k = name
    · have := FS.length_unlink_le fs name
      simp only [h1, ↓reduceIte, List.length_cons]
      omega
    · have h3 : name ≠ k := fun e1 => h1 e1.symm
      rw [FS.lstat_cons, if_neg h3] at h
      have := ih h
      simp only [h1, ↓reduceIte, List.length_cons]
      omega

/-- Beyond the number of entries the fuel of `follow` is irrelevant. -/
theorem FS.follow_fuel (n : Nat) :
    ∀ (fs : FS) (name : String) (k : Nat), fs.length ≤ n → fs.length + 1 ≤ k →
      FS.follow k fs name = FS.follow (fs.length + 1) fs name := by
  induction n with
  | zero =>
    intro fs name k hn hk
    have hfs : fs = [] := List.eq_nil_of_length_eq_zero (by omega)
    subst hfs
    obtain ⟨j, rfl⟩ : ∃ j, k = j + 1 := ⟨k - 1, by omega⟩
    simp [FS.follow, FS.lstat]
  | succ n ih =>
    intro fs name k hn hk
    obtain ⟨j, rfl⟩ : ∃ j, k = j + 1 := ⟨k - 1, by omega⟩
    simp only [FS.follow]
    cases hl : fs.lstat name with
    | none => rfl
    | some nd =>
      cases nd with
      | symlink target =>
        have hlt := FS.length_unlink_lt fs name (by simp [hl])
        simp only
        rw [ih (fs.unlink name) (resolveLink name target) j (by omega) (by omega),
          ih (fs.unlink name) (resolveLink name target) fs.length (by omega) (by omega)]
      | file d => rfl
      | dir => rfl

theorem FS.stat_eq_follow (fs : FS) (name : String) (k : Nat) (hk : fs.length + 1 ≤ k) :
    fs.stat name = FS.follow k fs name :=
  (FS.follow_fuel fs.length fs name k le_rfl hk).symm

end os

/-! ## The refresher -/

namespace tokenrefresher

namespace TokenRefresher

open os

/-- C6: if the issuance call fails, or returns a token that `isTokenValid`
rejects for `minExpiryDuration`, then `refresh` returns an error and leaves the
file system as it was, so that the managed token file reads as before. -/
theorem refresh_failure_keeps_token (env : Env) (r : TokenRefresher) (client : Client) (w : World)
    (h : (∃ e, (r.createToken client w).1 = Except.error e) ∨
      ∃ tok, (r.createToken client w).1 = Except.ok tok ∧
        isTokenValid env.lib (env.clock (r.createToken client w).2.trace.length) tok
          r.minExpiryDuration = false) :
    (∃ e, (r.refresh env client w).1 = some e) ∧
    (r.refresh env client w).2.fs = w.fs ∧
    (r.refresh env client w).2.fs.read r.TokenFile = w.fs.read r.TokenFile := by
  have hfs : (r.createToken client w).2.fs = w.fs := by
    unfold createToken tokenrefresher.createToken
    dsimp only
    cases client.CreateToken w.trace.length r.Namespace r.ServiceAccount
      ⟨r.TokenAudience, (time.Milliseconds r.ExpirationDuration).tdiv 1000, ""⟩ <;> rfl
  have key : (∃ e, (r.refresh env client w).1 = some e) ∧ (r.refresh env client w).2.fs = w.fs := by
    unfold refresh
    rcases hc : r.createToken client w with ⟨res, w1⟩
    rw [hc] at h hfs
    rcases h with ⟨e, he⟩ | ⟨tok, he, hv⟩
    · simp only at he
      subst he
      exact ⟨⟨e, rfl⟩, hfs⟩
    · simp only at he hv
      subst he
      simp only [hv, Bool.not_false, ↓reduceIte]
      exact ⟨⟨_, rfl⟩, hfs⟩
  exact ⟨key.1, key.2, by rw [key.2]⟩

/-- C6, witness: the identity authority fails, as in the tests. -/
theorem refresh_failure_keeps_token_witness :
    (Sample.r.refresh Sample.env Sample.failingClient Sample.managed).2.fs.read "/t/token" =
      some "new_token_contents" :=
  (refresh_failure_keeps_token Sample.env Sample.r Sample.failingClient Sample.managed
    (Or.inl ⟨_, rfl⟩)).2.2.trans (by decide)

/-- C8: when the default token file cannot be stat-ed, `ensureTarget` returns
an error and does not touch the file system, `Init` returns an error, and `Run`
returns an error after that one failed `Stat`, without monitoring or
refreshing. -/
theorem ensureTarget_default_missing (env : Env) (r : TokenRefresher) (w : World)
    (h : w.fs.stat r.DefaultTokenFile = none) :
    (∃ e, (r.ensureTarget env w).1 = some e) ∧
    (r.ensureTarget env w).2.fs = w.fs ∧
    (∃ e, (r.Init env w).1 = Except.error e) ∧
    (r.Init env w).2.2.fs = w.fs ∧
    ∀ mon ref, (∃ e, (r.Run env mon ref w).1 = RunResult.failed e) ∧
      (r.Run env mon ref w).2 = ⟨w.fs, w.trace ++ [Call.Stat r.DefaultTokenFile false]⟩ := by
  have he : ∀ r1 : TokenRefresher, r1.DefaultTokenFile = r.DefaultTokenFile →
      r1.ensureTarget env w =
        (some ("unable to access default token at " ++ r.DefaultTokenFile ++ ": no such file"),
          ⟨w.fs, w.trace ++ [Call.Stat r.DefaultTokenFile false]⟩) := by
    intro r1 h1
    simp [ensureTarget, Stat, h1, h, World.log]
  have hi : ∃ r1, r.Init env w =
      (Except.error ("unable to access default token at " ++ r.DefaultTokenFile ++ ": no such file"),
        r1, ⟨w.fs, w.trace ++ [Call.Stat r.DefaultTokenFile false]⟩) := by
    refine ⟨{ r with
      minExpiryDuration := Go.wrap64 (r.RefreshInterval + Int.tdiv r.RefreshInterval 2)
      shutdownFile := path.Join [path.Dir r.TokenFile, ShutdownFile] }, ?_⟩
    unfold Init
    dsimp only
    rw [he { r with
      minExpiryDuration := Go.wrap64 (r.RefreshInterval + Int.tdiv r.RefreshInterval 2)
      shutdownFile := path.Join [path.Dir r.TokenFile, ShutdownFile] } rfl]
  obtain ⟨r1, hi⟩ := hi
  refine ⟨⟨_, by rw [he r rfl]⟩, by rw [he r rfl], ⟨_, by rw [hi]⟩, by rw [hi], ?_⟩
  intro mon ref
  unfold Run
  rw [hi]
  exact ⟨⟨_, rfl⟩, rfl⟩

/-- C8, witness: on an empty file system `Run` makes one call, the failed
`Stat` of the default token file. -/
theorem ensureTarget_default_missing_witness :
    (Sample.r.Run Sample.env [MonitorEvent.tick] [RefreshEvent.refreshTick] ⟨[], []⟩).2 =
      ⟨[], [Call.Stat "/t/default_token" false]⟩ :=
  ((ensureTarget_default_missing Sample.env Sample.r ⟨[], []⟩ (by decide)).2.2.2.2
    [MonitorEvent.tick] [RefreshEvent.refreshTick]).2

end TokenRefresher

end tokenrefresher

/-! ## The name of the temporary file -/

namespace os

theorem digitChar_plain (m : Nat) (h : m < 10) :
    Nat.digitChar m ≠ '/' ∧ Nat.digitChar m ≠ '*' := by
  interval_cases m <;> decide

theorem toDigitsCore_plain (fuel : Nat) :
    ∀ (n : Nat) (ds : List Char), (∀ c ∈ ds, c ≠ '/' ∧ c ≠ '*') →
      ∀ c ∈ Nat.toDigitsCore 10 fuel n ds, c ≠ '/' ∧ c ≠ '*' := by
  induction fuel with
  | zero => intro n ds h; simpa [Nat.toDigitsCore] using h
  | succ fuel ih =>
    intro n ds h
    have hd := digitChar_plain (n % 10) (Nat.mod_lt _ (by decide))
    have hcons : ∀ c ∈ Nat.digitChar (n % 10) :: ds, c ≠ '/' ∧ c ≠ '*' := by
      intro c hc
      rcases List.mem_cons.mp hc with rfl | hc
      · exact hd
      · exact h c hc
    simp only [Nat.toDigitsCore]
    split_ifs
    · exact hcons
    · exact ih _ _ hcons

theorem toDigitsCore_ne_nil (fuel : Nat) :
    ∀ (n : Nat) (ds : List Char), (ds ≠ [] ∨ 0 < fuel) → Nat.toDigitsCore 10 fuel n ds ≠ [] := by
  induction fuel with
  | zero =>
    intro n ds h
    rcases h with h | h
    · simpa [Nat.toDigitsCore] using h
    · omega
  | succ fuel ih =>
    intro n ds _
    simp only [Nat.toDigitsCore]
    split_ifs
    · simp
    · exact ih _ _ (Or.inl (by simp))

theorem toDigits_plain (n : Nat) : ∀ c ∈ Nat.toDigits 10 n, c ≠ '/' ∧ c ≠ '*' :=
  toDigitsCore_plain _ _ _ (by simp)

theorem toDigits_ne_nil (n : Nat) : Nat.toDigits 10 n ≠ [] :=
  toDigitsCore_ne_nil _ _ _ (Or.inr (by omega))

theorem takeWhile_append_stop {p : Char → Bool} (a b : List Char) (x : Char)
    (ha : ∀ c ∈ a, p c = true) (hx : p x = false) : (a ++ x :: b).takeWhile p = a := by
  induction a with
  | nil => simp [List.takeWhile_cons, hx]
  | cons c a ih =>
    have hc : p c = true := ha c (by simp)
    simp only [List.cons_append, List.takeWhile_cons, hc, ↓reduceIte, List.cons.injEq, true_and]
    exact ih (fun d hd => ha d (by simp [hd]))

theorem afterLastSlash_append (d y : List Char) (hy : '/' ∉ y) :
    path.afterLastSlash (d ++ '/' :: y) = y := by
  unfold path.afterLastSlash
  have : (d ++ '/' :: y).reverse = y.reverse ++ '/' :: d.reverse := by simp
  rw [this, takeWhile_append_stop _ _ _ _ (by simp)]
  · simp
  · intro c hc
    have : c ≠ '/' := fun e => hy (by simpa [e] using hc)
    simpa using this

theorem trimSlashes_of_last (l : List Char) (c : Char) (hc : c ≠ '/') :
    path.trimSlashes (l ++ [c]) = l ++ [c] := by
  unfold path.trimSlashes
  have : (l ++ [c]).reverse = c :: l.reverse := by simp
  rw [this, List.dropWhile_cons]
  have : (c == '/') = false := by simpa using hc
  simp [this]

/-- The last element of a path that ends in a non-empty name without slash. -/
theorem Base_of_append (d y : List Char) (hy : '/' ∉ y) (hne : y ≠ []) :
    (path.Base (String.mk (d ++ '/' :: y))).data = y := by
  obtain ⟨l, c, rfl⟩ : ∃ l c, y = l ++ [c] := by
    rcases List.eq_nil_or_concat y with h | ⟨l, c, h⟩
    · exact absurd h hne
    · exact ⟨l, c, by simpa using h⟩
  have hc : c ≠ '/' := fun e => hy (by simp [e])
  have e1 : d ++ '/' :: (l ++ [c]) = (d ++ '/' :: l) ++ [c] := by simp
  unfold path.Base
  have hnil : (String.mk (d ++ '/' :: (l ++ [c]))).data ≠ [] := by simp
  simp only [hnil, ↓reduceIte]
  rw [e1, trimSlashes_of_last _ _ hc, ← e1, afterLastSlash_append _ _ hy]
  simp

theorem prefixAndSuffix_spec (b : List Char) :
    ('*' ∉ b ∧ prefixAndSuffix b = (b, [])) ∨
    (b = (prefixAndSuffix b).1 ++ '*' :: (prefixAndSuffix b).2) := by
  by_cases h : '*' ∈ b
  · right
    unfold prefixAndSuffix
    have hc : b.contains '*' = true := by simpa using h
    simp only [hc, ↓reduceIte]
    have hsplit := List.takeWhile_append_dropWhile (fun c => c != '*') b.reverse
    cases hd : b.reverse.dropWhile (fun c => c != '*') with
    | nil =>
      rw [hd, List.append_nil] at hsplit
      have : ∀ c ∈ b.reverse, (c != '*') = true := by
        intro c hc1
        rw [← hsplit] at hc1
        exact List.mem_takeWhile_imp (p := fun c => c != '*') hc1
      have := this '*' (by simpa using h)
      simp at this
    | cons x rest =>
      have hx : (x != '*') = false := by
        have := List.head_dropWhile_not (fun c => c != '*') b.reverse (by simp [hd])
        simpa [hd] using this
      have hx1 : x = '*' := by simpa using hx
      subst hx1
      rw [hd] at hsplit
      have : b = (b.reverse.takeWhile (fun c => c != '*') ++ '*' :: rest).reverse := by
        rw [hsplit, List.reverse_reverse]
      simp only [List.reverse_cons, List.dropLast_concat]
      rw [List.reverse_append, List.reverse_cons, List.append_assoc] at this
      simpa using this
  · left
    refine ⟨h, ?_⟩
    unfold prefixAndSuffix
    have hc : b.contains '*' = false := by simpa using h
    simp only [hc, Bool.false_eq_true, ↓reduceIte]

theorem joinPath_eq (d name : List Char) : ∃ d0, joinPath d name = d0 ++ '/' :: name := by
  unfold joinPath
  split_ifs with h
  · obtain ⟨l, hl⟩ : ∃ l, d = l ++ ['/'] := by
      rcases List.eq_nil_or_concat d with h0 | ⟨l, c, h0⟩
      · simp [h0] at h
      · subst h0
        have hc : c = '/' := by simpa using h
        exact ⟨l, by simp [hc]⟩
    exact ⟨l, by simp [hl]⟩
  · exact ⟨d, rfl⟩

/-- The name that `os.CreateTemp` draws for the pattern `path.Base filename`
is never `filename` itself. -/
theorem tempName_ne (filename : String) (d : List Char) (rnd : Nat)
    (hsep : ¬ (path.Base filename).data.contains '/' = true) :
    String.mk (joinPath d (prefixAndSuffix (path.Base filename).data).1 ++ Nat.toDigits 10 rnd
      ++ (prefixAndSuffix (path.Base filename).data).2) ≠ filename := by
  intro heq
  have hb : '/' ∉ (path.Base filename).data := by simpa using hsep
  obtain ⟨d0, hd0⟩ := joinPath_eq d (prefixAndSuffix (path.Base filename).data).1
  have hdig := toDigits_plain rnd
  have hdne := toDigits_ne_nil rnd
  generalize Nat.toDigits 10 rnd = digits at *
  generalize hpre : (prefixAndSuffix (path.Base filename).data).1 = pre at *
  generalize hsuf : (prefixAndSuffix (path.Base filename).data).2 = suf at *
  have hps : ('*' ∉ (path.Base filename).data ∧ pre = (path.Base filename).data ∧ suf = []) ∨
      (path.Base filename).data = pre ++ '*' :: suf := by
    rcases prefixAndSuffix_spec (path.Base filename).data with ⟨h1, h2⟩ | h2
    · left
      rw [h2] at hpre hsuf
      exact ⟨h1, hpre.symm, hsuf.symm⟩
    · right
      rw [hpre, hsuf] at h2
      exact h2
  have hpre_s : '/' ∉ pre := by
    rcases hps with ⟨_, h, _⟩ | h
    · rw [h]; exact hb
    · intro hm; exact hb (by rw [h]; simp [hm])
  have hsuf_s : '/' ∉ suf := by
    rcases hps with ⟨_, _, h⟩ | h
    · rw [h]; simp
    · intro hm; exact hb (by rw [h]; simp [hm])
  have hy : '/' ∉ pre ++ digits ++ suf := by
    simp only [List.mem_append, not_or]
    exact ⟨⟨hpre_s, fun hm => (hdig _ hm).1 rfl⟩, hsuf_s⟩
  have hyne : pre ++ digits ++ suf ≠ [] := by simp [hdne]
  have hname : d0 ++ '/' :: pre ++ digits ++ suf = d0 ++ '/' :: (pre ++ digits ++ suf) := by simp
  rw [hd0, hname] at heq
  have hbase := Base_of_append d0 (pre ++ digits ++ suf) hy hyne
  rw [heq] at hbase
  rcases hps with ⟨_, h, hs⟩ | h
  · rw [← h, hs] at hbase
    have := congrArg List.length hbase
    have hl : 0 < digits.length := List.length_pos.mpr hdne
    simp only [List.length_append, List.length_nil] at this
    omega
  · rw [h] at hbase
    have h2 : '*' :: suf = digits ++ suf := by
      have := hbase
      rw [List.append_assoc] at this
      exact List.append_cancel_left this
    cases digits with
    | nil => exact hdne rfl
    | cons c cs =>
      have hc : c = '*' := by
        have := congrArg List.head? h2
        simpa using this.symm
      exact (hdig c (by simp)).2 hc

end os

/-! ## Atomic publish -/

namespace os

theorem createTempLoop_spec (env : Env) (pre suf : List Char) (n : Nat) :
    ∀ w, ∃ l, (createTempLoop env pre suf n w).2.trace = w.trace ++ l ∧
      ((∃ e, (createTempLoop env pre suf n w).1 = Except.error e ∧
          (createTempLoop env pre suf n w).2.fs = w.fs ∧
          ∀ c ∈ l, ∃ name, c = Call.OpenFile name false) ∨
       (∃ name rnd, (createTempLoop env pre suf n w).1 = Except.ok name ∧
          name = String.mk (pre ++ Nat.toDigits 10 rnd ++ suf) ∧
          w.fs.lstat name = none ∧
          (createTempLoop env pre suf n w).2.fs = w.fs.set name (Node.file "") ∧
          Call.OpenFile name true ∈ l ∧
          ∀ c ∈ l, c = Call.OpenFile name true ∨ ∃ other, c = Call.OpenFile other false)) := by
  induction n with
  | zero =>
    intro w
    exact ⟨[], by simp [createTempLoop], Or.inl ⟨_, rfl, rfl, by simp⟩⟩
  | succ n ih =>
    intro w
    simp only [createTempLoop]
    split_ifs with hex hfault
    · obtain ⟨l, htr, hcase⟩ := ih (w.log (Call.OpenFile
        (String.mk (pre ++ Nat.toDigits 10 (env.rand w.trace.length) ++ suf)) false))
      refine ⟨Call.OpenFile _ false :: l, by simpa [World.log] using htr, ?_⟩
      rcases hcase with ⟨e, h1, h2, h3⟩ | ⟨name, rnd, h1, h2, h3, h4, hmem, h5⟩
      · refine Or.inl ⟨e, h1, h2, ?_⟩
        intro c hc
        rcases List.mem_cons.mp hc with rfl | hc
        · exact ⟨_, rfl⟩
        · exact h3 c hc
      · refine Or.inr ⟨name, rnd, h1, h2, h3, h4, List.mem_cons_of_mem _ hmem, ?_⟩
        intro c hc
        rcases List.mem_cons.mp hc with rfl | hc
        · exact Or.inr ⟨_, rfl⟩
        · exact h5 c hc
    · refine ⟨[Call.OpenFile _ false], rfl, Or.inl ⟨_, rfl, rfl, ?_⟩⟩
      intro c hc
      exact ⟨_, List.mem_singleton.mp hc⟩
    · refine ⟨[Call.OpenFile _ true], rfl,
        Or.inr ⟨_, env.rand w.trace.length, rfl, rfl, ?_, rfl, by simp, ?_⟩⟩
      · simpa using hex
      · intro c hc
        exact Or.inl (List.mem_singleton.mp hc)

theorem FS.chainFrom_fuel (n : Nat) :
    ∀ (fs : FS) (name : String) (k : Nat), fs.length ≤ n → fs.length + 1 ≤ k →
      FS.chainFrom k fs name = FS.chainFrom (fs.length + 1) fs name := by
  induction n with
  | zero =>
    intro fs name k hn hk
    have hfs : fs = [] := List.eq_nil_of_length_eq_zero (by omega)
    subst hfs
    obtain ⟨j, rfl⟩ : ∃ j, k = j + 1 := ⟨k - 1, by omega⟩
    simp [FS.chainFrom, FS.lstat]
  | succ n ih =>
    intro fs name k hn hk
    obtain ⟨j, rfl⟩ : ∃ j, k = j + 1 := ⟨k - 1, by omega⟩
    simp only [FS.chainFrom]
    cases hl : fs.lstat name with
    | none => rfl
    | some nd =>
      cases nd with
      | symlink target =>
        have hlt := FS.length_unlink_lt fs name (by simp [hl])
        simp only
        rw [ih (fs.unlink name) (resolveLink name target) j (by omega) (by omega),
          ih (fs.unlink name) (resolveLink name target) fs.length (by omega) (by omega)]
      | file d => rfl
      | dir => rfl

/-- Resolution does not see an entry that is not on the chain of links. -/
theorem FS.follow_congr (tmp : String) (k : Nat) :
    ∀ (fs fs1 : FS) (name : String),
      (∀ other, other ≠ tmp → fs1.lstat other = fs.lstat other) →
      tmp ∉ FS.chainFrom k fs name → FS.follow k fs1 name = FS.follow k fs name := by
  induction k with
  | zero => intro fs fs1 name _ _; rfl
  | succ k ih =>
    intro fs fs1 name hext hchain
    have hname : name ≠ tmp := by
      intro e
      apply hchain
      simp only [FS.chainFrom]
      split <;> simp [e]
    simp only [FS.follow, hext name hname]
    cases hl : fs.lstat name with
    | none => rfl
    | some nd =>
      cases nd with
      | symlink target =>
        simp only
        apply ih
        · intro other ho
          by_cases h1 : other = name
          · rw [h1, FS.lstat_unlink_self, FS.lstat_unlink_self]
          · rw [FS.lstat_unlink_of_ne _ _ _ h1, FS.lstat_unlink_of_ne _ _ _ h1, hext other ho]
        · intro hm
          apply hchain
          simp [FS.chainFrom, hl, hm]
      | file d => rfl
      | dir => rfl

theorem FS.read_set_of_not_chain (fs : FS) (tmp name : String) (n : Node)
    (habs : fs.lstat tmp = none) (hchain : tmp ∉ fs.chain name) :
    (fs.set tmp n).read name = fs.read name := by
  have hlen : (fs.set tmp n).length = fs.length + 1 := by
    simp [FS.set, FS.unlink_of_lstat_none fs tmp habs]
  have h1 : (fs.set tmp n).stat name = FS.follow (fs.length + 2) (fs.set tmp n) name := by
    unfold FS.stat
    rw [hlen]
  have h2 : FS.follow (fs.length + 2) (fs.set tmp n) name = FS.follow (fs.length + 2) fs name := by
    apply FS.follow_congr tmp
    · intro other ho
      exact FS.lstat_set_of_ne fs tmp other n ho
    · rw [FS.chainFrom_fuel fs.length fs name _ le_rfl (by omega)]
      exact hchain
  unfold FS.read
  rw [h1, h2, ← FS.stat_eq_follow fs name (fs.length + 2) (by omega)]

/-- A name that does not exist is not on the chain of a name that resolves. -/
theorem FS.not_mem_chainFrom_of_follow (tmp : String) (k : Nat) :
    ∀ (fs : FS) (name : String), (FS.follow k fs name).isSome → fs.lstat tmp = none →
      tmp ∉ FS.chainFrom k fs name := by
  induction k with
  | zero => intro fs name h _; simp [FS.follow] at h
  | succ k ih =>
    intro fs name h habs
    simp only [FS.follow] at h
    simp only [FS.chainFrom]
    have hname : tmp ≠ name := by
      intro e
      rw [← e, habs] at h
      simp at h
    cases hl : fs.lstat name with
    | none => simp [hl] at h
    | some nd =>
      cases nd with
      | symlink target =>
        rw [hl] at h
        simp only [List.mem_cons, not_or]
        refine ⟨hname, ih _ _ h ?_⟩
        rw [FS.lstat_unlink_of_ne _ _ _ hname, habs]
      | file d => simpa using hname
      | dir => simpa using hname

theorem FS.not_mem_chain (fs : FS) (tmp name : String) (habs : fs.lstat tmp = none)
    (hne : tmp ≠ name) (h : fs.lstat name = none ∨ (fs.stat name).isSome) :
    tmp ∉ fs.chain name := by
  rcases h with h | h
  · simp [FS.chain, FS.chainFrom, h, hne]
  · exact FS.not_mem_chainFrom_of_follow tmp _ fs name h habs

theorem FS.read_of_lstat_file (fs : FS) (name data : String)
    (h : fs.lstat name = some (Node.file data)) : fs.read name = some data := by
  simp [FS.read, FS.stat, FS.follow, h]

theorem World.since_append (w : World) (fs : FS) (l : List Call) :
    w.since ⟨fs, w.trace ++ l⟩ = l := by
  simp [World.since]

theorem CreateTemp_spec (env : Env) (filename : String) (w : World) :
    ∃ l, (CreateTemp env (path.Dir filename) (path.Base filename) w).2.trace = w.trace ++ l ∧
      ((∃ e, (CreateTemp env (path.Dir filename) (path.Base filename) w).1 = Except.error e ∧
          (CreateTemp env (path.Dir filename) (path.Base filename) w).2.fs = w.fs ∧
          ∀ c ∈ l, ∃ name, c = Call.OpenFile name false) ∨
       (∃ name, (CreateTemp env (path.Dir filename) (path.Base filename) w).1 = Except.ok name ∧
          name ≠ filename ∧ w.fs.lstat name = none ∧
          (CreateTemp env (path.Dir filename) (path.Base filename) w).2.fs =
            w.fs.set name (Node.file "") ∧
          Call.OpenFile name true ∈ l ∧
          ∀ c ∈ l, c = Call.OpenFile name true ∨ ∃ other, c = Call.OpenFile other false)) := by
  unfold CreateTemp
  by_cases hsep : (path.Base filename).data.contains '/' = true
  · rw [if_pos hsep]
    exact ⟨[], by simp, Or.inl ⟨_, rfl, rfl, by simp⟩⟩
  · rw [if_neg hsep]
    dsimp only
    generalize (if (path.Dir filename).data = [] then env.tempDir
      else path.Dir filename).data = d
    obtain ⟨l, htr, hcase⟩ := createTempLoop_spec env
      (joinPath d (prefixAndSuffix (path.Base filename).data).1)
      (prefixAndSuffix (path.Base filename).data).2 10000 w
    refine ⟨l, htr, ?_⟩
    rcases hcase with h | ⟨name, rnd, h1, h2, h3, h4, hmem, h5⟩
    · exact Or.inl h
    · refine Or.inr ⟨name, h1, ?_, h3, h4, hmem, h5⟩
      rw [h2]
      exact tempName_ne filename d rnd hsep

end os

namespace tokenrefresher

open os

theorem empty_append (s : String) : "" ++ s = s := by
  apply String.ext
  simp [String.data_append]

/-- The ways in which `safeWrite` can run. -/
theorem safeWrite_cases (env : Env) (filename data : String) (w : World) :
    ∃ l,
      (∃ e, safeWrite env filename data w = (some e, ⟨w.fs, w.trace ++ l⟩) ∧
        ∀ c ∈ l, ∃ name, c = Call.OpenFile name false) ∨
      ∃ tmp, w.fs.lstat tmp = none ∧ tmp ≠ filename ∧ Call.OpenFile tmp true ∈ l ∧
        (∀ c ∈ l, c = Call.OpenFile tmp true ∨ ∃ other, c = Call.OpenFile other false) ∧
        ((∃ e part, safeWrite env filename data w =
            (some e, ⟨w.fs.set tmp (Node.file part),
              w.trace ++ (l ++ [Call.WriteString tmp data false, Call.Close tmp])⟩)) ∨
         (∃ e, safeWrite env filename data w =
            (some e, ⟨w.fs.set tmp (Node.file data),
              w.trace ++ (l ++ [Call.WriteString tmp data true, Call.Close tmp,
                Call.Rename tmp filename false, Call.Remove tmp false])⟩)) ∨
         (∃ e, safeWrite env filename data w =
            (some e, ⟨(w.fs.set tmp (Node.file data)).unlink tmp,
              w.trace ++ (l ++ [Call.WriteString tmp data true, Call.Close tmp,
                Call.Rename tmp filename false, Call.Remove tmp true])⟩)) ∨
         safeWrite env filename data w =
            (none, ⟨((w.fs.set tmp (Node.file data)).unlink tmp).set filename (Node.file data),
              w.trace ++ (l ++ [Call.WriteString tmp data true, Call.Close tmp,
                Call.Rename tmp filename true, Call.Remove tmp false])⟩)) := by
  obtain ⟨l, htr, hcase⟩ := CreateTemp_spec env filename w
  unfold safeWrite writeTemp
  rcases hct : CreateTemp env (path.Dir filename) (path.Base filename) w with ⟨res, ⟨fs1, tr1⟩⟩
  rw [hct] at htr hcase
  simp only at htr hcase
  subst htr
  refine ⟨l, ?_⟩
  · rcases hcase with ⟨e, h1, h2, h3⟩ | ⟨tmp, h1, hne, h3, h4, hmem, h5⟩
    · subst h1 h2
      exact Or.inl ⟨_, rfl, h3⟩
    · subst h1 h4
      refine Or.inr ⟨tmp, h3, hne, hmem, h5, ?_⟩
      have hl1 := FS.lstat_set_self w.fs tmp (Node.file "")
      simp only [WriteString, hl1, World.log, Close]
      split_ifs with hwf
      · exact Or.inl ⟨_, "" ++ String.mk (data.data.take (env.written (w.trace ++ l).length)),
          Prod.ext rfl (by simp [FS.set, FS.unlink_cons, FS.unlink_idem])⟩
      · right
        have hfs2 : (w.fs.set tmp (Node.file "")).set tmp (Node.file ("" ++ data)) =
            w.fs.set tmp (Node.file data) := by
          simp [FS.set, FS.unlink_cons, FS.unlink_idem, empty_append]
        simp only [hfs2]
        have hl2 := FS.lstat_set_self w.fs tmp (Node.file data)
        simp only [Rename, hl2, World.log]
        split_ifs with hrf
        · simp only [Remove, World.log]
          split_ifs with hmf
          · exact Or.inl ⟨_, Prod.ext rfl (by simp)⟩
          · exact Or.inr (Or.inl ⟨_, Prod.ext rfl (by simp)⟩)
        · right; right
          have hl3 : (((w.fs.set tmp (Node.file data)).unlink tmp).set filename
              (Node.file data)).lstat tmp = none := by
            rw [FS.lstat_set_of_ne _ _ _ _ hne, FS.lstat_unlink_self]
          simp [Remove, World.log, hl3]

/-- C7 (as amended): if `safeWrite(path, content)` returns no error, reading
`path` afterwards yields exactly `content`; if it returns an error, reading
`path` yields what it yielded before, provided `path` was absent or resolved
or, more generally, the name of the temporary file does not lie on the chain
of symbolic links that starts at `path`; and when the rename fails,
`os.Remove` is called on the temporary file, which no longer exists afterwards
if that removal succeeds. -/
theorem safeWrite_publishes_or_keeps (env : Env) (filename data : String) (w : World) :
    ((safeWrite env filename data w).1 = none →
      (safeWrite env filename data w).2.fs.read filename = some data) ∧
    ((safeWrite env filename data w).1 ≠ none →
      (w.fs.lstat filename = none ∨ (w.fs.stat filename).isSome ∨
        ∀ tmp, Call.OpenFile tmp true ∈ w.since (safeWrite env filename data w).2 →
          tmp ∉ w.fs.chain filename) →
      (safeWrite env filename data w).2.fs.read filename = w.fs.read filename) ∧
    (∀ tmp, Call.Rename tmp filename false ∈ w.since (safeWrite env filename data w).2 →
      (∃ ok, (w.since (safeWrite env filename data w).2).getLast? = some (Call.Remove tmp ok)) ∧
      (Call.Remove tmp true ∈ w.since (safeWrite env filename data w).2 →
        (safeWrite env filename data w).2.fs.lstat tmp = none)) := by
  obtain ⟨l, hcases⟩ := safeWrite_cases env filename data w
  have hopen : ∀ tmp other ok, (∀ c ∈ l, c = Call.OpenFile tmp true ∨
      ∃ o, c = Call.OpenFile o false) → Call.Rename other filename ok ∉ l := by
    intro tmp other ok h hm
    rcases h _ hm with h1 | ⟨o, h1⟩ <;> cases h1
  have hchain : ∀ (tmp : String) (l1 : List Call), w.fs.lstat tmp = none → tmp ≠ filename →
      Call.OpenFile tmp true ∈ l1 →
      (w.fs.lstat filename = none ∨ (w.fs.stat filename).isSome ∨
        ∀ t, Call.OpenFile t true ∈ l1 → t ∉ w.fs.chain filename) →
      tmp ∉ w.fs.chain filename := by
    intro tmp l1 habs hne hmem h
    rcases h with h | h | h
    · exact FS.not_mem_chain _ _ _ habs hne (Or.inl h)
    · exact FS.not_mem_chain _ _ _ habs hne (Or.inr h)
    · exact h tmp hmem
  rcases hcases with ⟨e, h, hl⟩ | ⟨tmp, habs, hne, hmem, hl, hB | hC | hD | hE⟩
  · rw [h]
    refine ⟨by simp, fun _ _ => rfl, ?_⟩
    intro tmp hm
    rw [World.since_append] at hm
    obtain ⟨name, hn⟩ := hl _ hm
    cases hn
  · obtain ⟨e, part, h⟩ := hB
    rw [h]
    simp only [World.since_append]
    refine ⟨by simp, fun _ hch => ?_, ?_⟩
    · exact FS.read_set_of_not_chain _ _ _ _ habs
        (hchain tmp _ habs hne (List.mem_append_left _ hmem) hch)
    · intro other hm
      simp only [List.mem_append, List.mem_cons, List.mem_singleton, List.not_mem_nil,
        or_false] at hm
      rcases hm with hm | hm | hm
      · exact absurd hm (hopen tmp other false hl)
      · cases hm
      · cases hm
  · obtain ⟨e, h⟩ := hC
    rw [h]
    simp only [World.since_append]
    refine ⟨by simp, fun _ hch => ?_, ?_⟩
    · exact FS.read_set_of_not_chain _ _ _ _ habs
        (hchain tmp _ habs hne (List.mem_append_left _ hmem) hch)
    · intro other hm
      simp only [List.mem_append, List.mem_cons, List.mem_singleton, List.not_mem_nil,
        or_false] at hm
      rcases hm with hm | hm | hm | hm | hm
      · exact absurd hm (hopen tmp other false hl)
      · cases hm
      · cases hm
      · cases hm
        refine ⟨⟨false, by simp⟩, fun hr => ?_⟩
        simp only [List.mem_append, List.mem_cons, List.mem_singleton, List.not_mem_nil,
          or_false] at hr
        rcases hr with hr | hr | hr | hr | hr
        · rcases hl _ hr with h1 | ⟨o, h1⟩ <;> cases h1
        · cases hr
        · cases hr
        · cases hr
        · cases hr
      · cases hm
  · obtain ⟨e, h⟩ := hD
    rw [h]
    simp only [World.since_append]
    refine ⟨by simp, fun _ _ => ?_, ?_⟩
    · rw [FS.unlink_set_self, FS.unlink_of_lstat_none _ _ habs]
    · intro other hm
      simp only [List.mem_append, List.mem_cons, List.mem_singleton, List.not_mem_nil,
        or_false] at hm
      rcases hm with hm | hm | hm | hm | hm
      · exact absurd hm (hopen tmp other false hl)
      · cases hm
      · cases hm
      · cases hm
        exact ⟨⟨true, by simp⟩, fun _ => FS.lstat_unlink_self _ _⟩
      · cases hm
  · rw [hE]
    simp only [World.since_append]
    refine ⟨fun _ => FS.read_of_lstat_file _ _ _ (FS.lstat_set_self _ _ _), by simp, ?_⟩
    intro other hm
    simp only [List.mem_append, List.mem_cons, List.mem_singleton, List.not_mem_nil,
      or_false] at hm
    rcases hm with hm | hm | hm | hm | hm
    · exact absurd hm (hopen tmp other false hl)
    · cases hm
    · cases hm
    · cases hm
    · cases hm

/-- C7, witness: a publish without faults, and a publish whose rename fails
while the removal of the temporary file succeeds. -/
theorem safeWrite_publishes_or_keeps_witness :
    (safeWrite Sample.env "/t/token" "new" Sample.managed).2.fs.read "/t/token" = some "new" ∧
    (safeWrite (Sample.faulty 3 4) "/t/token" "new" Sample.managed).2.fs.read "/t/token" =
      Sample.managed.fs.read "/t/token" ∧
    (safeWrite (Sample.faulty 3 4) "/t/token" "new" Sample.managed).2.fs.lstat "/t/token42" = none :=
  ⟨(safeWrite_publishes_or_keeps Sample.env "/t/token" "new" Sample.managed).1 (by decide),
    (safeWrite_publishes_or_keeps (Sample.faulty 3 4) "/t/token" "new" Sample.managed).2.1
      (by decide) (Or.inr (Or.inl (by decide))),
    ((safeWrite_publishes_or_keeps (Sample.faulty 3 4) "/t/token" "new" Sample.managed).2.2
      "/t/token42" (by decide)).2 (by decide)⟩

/-- C7, counterexample.  First run: the rename fails and so does the removal
of the temporary file, which still exists afterwards.  Second run: the path is
a symbolic link to the name that the temporary file gets, the write fails
after two bytes, `safeWrite` returns an error, and reading the path, which
failed before, now yields those two bytes. -/
theorem safeWrite_leaves_temp_behind :
    ((safeWrite (Sample.faulty 3 5) "/t/token" "new" Sample.managed).1.isSome = true ∧
      (safeWrite (Sample.faulty 3 5) "/t/token" "new" Sample.managed).2.trace =
        [Call.OpenFile "/t/token42" true, Call.WriteString "/t/token42" "new" true,
          Call.Close "/t/token42", Call.Rename "/t/token42" "/t/token" false,
          Call.Remove "/t/token42" false] ∧
      (safeWrite (Sample.faulty 3 5) "/t/token" "new" Sample.managed).2.fs.lstat "/t/token42" =
        some (Node.file "new")) ∧
    ((safeWrite (Sample.faulty 1 2) "/t/token" "new" Sample.dangling).1.isSome = true ∧
      Sample.dangling.fs.read "/t/token" = none ∧
      (safeWrite (Sample.faulty 1 2) "/t/token" "new" Sample.dangling).2.fs.read "/t/token" =
        some "ne") := by
  decide

end tokenrefresher

/-! ## The issuance request -/

namespace time

/-- Dividing the milliseconds of a duration by 1000 gives its whole seconds,
truncated toward zero. -/
theorem Milliseconds_tdiv (d : Int) :
    Int.tdiv (Milliseconds d) 1000 = Int.tdiv d 1000000000 := by
  unfold Milliseconds
  rcases Int.le_total 0 d with h | h
  · have h1 : 0 ≤ d.tdiv 1000000 := Int.tdiv_nonneg h (by decide)
    rw [Int.tdiv_eq_ediv h (by decide), Int.tdiv_eq_ediv h (by decide)]
    rw [Int.tdiv_eq_ediv (by omega) (by decide)]
    omega
  · obtain ⟨e, rfl⟩ : ∃ e, d = -e := ⟨-d, by omega⟩
    have he : 0 ≤ e := by omega
    rw [Int.neg_tdiv, Int.neg_tdiv, Int.neg_tdiv]
    rw [Int.tdiv_eq_ediv he (by decide), Int.tdiv_eq_ediv he (by decide)]
    rw [Int.tdiv_eq_ediv (by omega) (by decide)]
    omega

end time

namespace tokenrefresher

namespace TokenRefresher

open os

/-- C11: for every configured `ExpirationDuration`, the lifetime that
`createToken` requests, `d.Milliseconds() / 1000`, is `d` truncated toward zero
to whole seconds, and the request that reaches the identity authority, for the
configured namespace and service account, carries that lifetime and the
configured audiences; `createToken` returns the token of the answer, or the
error. -/
theorem createToken_request (r : TokenRefresher) (client : Client) (w : World) :
    Int.tdiv (time.Milliseconds r.ExpirationDuration) 1000 =
      Int.tdiv r.ExpirationDuration 1000000000 ∧
    (r.createToken client w).2.trace =
      w.trace ++ [Call.CreateToken r.Namespace r.ServiceAccount
        ⟨r.TokenAudience, Int.tdiv r.ExpirationDuration 1000000000, ""⟩
        (client.CreateToken w.trace.length r.Namespace r.ServiceAccount
          ⟨r.TokenAudience, Int.tdiv r.ExpirationDuration 1000000000, ""⟩).toBool] ∧
    (r.createToken client w).1 =
      (match client.CreateToken w.trace.length r.Namespace r.ServiceAccount
          ⟨r.TokenAudience, Int.tdiv r.ExpirationDuration 1000000000, ""⟩ with
        | Except.error e => Except.error ("unable to create token: " ++ e)
        | Except.ok resp => Except.ok resp.Token) := by
  refine ⟨time.Milliseconds_tdiv _, ?_, ?_⟩
  · unfold createToken tokenrefresher.createToken
    dsimp only
    rw [time.Milliseconds_tdiv]
    cases client.CreateToken w.trace.length r.Namespace r.ServiceAccount
      ⟨r.TokenAudience, r.ExpirationDuration.tdiv 1000000000, ""⟩ <;> rfl
  · unfold createToken tokenrefresher.createToken
    dsimp only
    rw [time.Milliseconds_tdiv]
    cases client.CreateToken w.trace.length r.Namespace r.ServiceAccount
      ⟨r.TokenAudience, r.ExpirationDuration.tdiv 1000000000, ""⟩ <;> rfl

end TokenRefresher

end tokenrefresher

/-! ## Retry with no attempt to spare -/

namespace retry

theorem wrap64_minInt64_pred : Go.wrap64 (Go.minInt64 - 1) = Go.maxInt64 := by decide

/-- With at most one attempt, and not the smallest `int`, `Retry` invokes the
operation once and does not sleep. -/
theorem Retry_once_of_le_one {σ ε : Type} (doSleep : Int → σ → σ) (sleep : Int)
    (f : σ → (Option ε × Bool) × σ) (frames : Nat) (a : Int) (s : σ) (h1 : a ≤ 1)
    (h2 : Go.minInt64 < a) :
    Retry (meteredSleep doSleep) frames a sleep (metered f) ⟨s, 0, 0⟩ =
      (Go.Exit.returned (f s).1.1, ⟨(f s).2, 1, 0⟩) ∧
    Retry doSleep frames a sleep f s = (Go.Exit.returned (f s).1.1, (f s).2) := by
  have hw : ¬ 0 < Go.wrap64 (a - 1) := by
    unfold Go.wrap64 Go.minInt64 at *
    omega
  exact ⟨Retry_of_last (meteredSleep doSleep) sleep (metered f) frames a ⟨s, 0, 0⟩ hw,
    Retry_of_last doSleep sleep f frames a s hw⟩

/-- C12, the code at the failing input: with `math.MinInt64` attempts the
decrement wraps around to `math.MaxInt64`.  An operation that fails once is
invoked a second time, after a sleep.  An operation that always fails is
invoked until the stack is exhausted and the process aborted, 4194305 times on
a stack with room for 4194304 nested calls of `Retry`; on a stack with room
for all the nested calls it is invoked 2^63 times, with 2^63 - 1 sleeps. -/
theorem Retry_at_minInt64_retries :
    Retry (meteredSleep (fun _ (s : Nat) => s)) 4194304 Go.minInt64 20000000000
        (metered Sample.secondTimeLucky) ⟨0, 0, 0⟩ = (Go.Exit.returned none, ⟨2, 2, 1⟩) ∧
    Retry (meteredSleep (fun _ (s : Nat) => s)) 4194304 Go.minInt64 20000000000
        (metered Sample.alwaysFailing) ⟨0, 0, 0⟩ =
      (Go.Exit.stackOverflow, ⟨4194305, 4194305, 4194305⟩) ∧
    (Retry (meteredSleep (fun _ (s : Nat) => s)) 9223372036854775807 Go.minInt64 20000000000
        (metered Sample.alwaysFailing) ⟨0, 0, 0⟩).2.calls = 9223372036854775808 ∧
    (Retry (meteredSleep (fun _ (s : Nat) => s)) 9223372036854775807 Go.minInt64 20000000000
        (metered Sample.alwaysFailing) ⟨0, 0, 0⟩).2.sleeps = 9223372036854775807 := by
  have hpos : 0 < Go.wrap64 (Go.minInt64 - 1) := by decide
  have hstart : meteredSleep (fun _ (s : Nat) => s) 20000000000
      (metered Sample.alwaysFailing ⟨0, 0, 0⟩).2 = ⟨1, 1, 1⟩ := rfl
  have hrun : Retry (meteredSleep (fun _ (s : Nat) => s)) (9223372036854775806 + 1) Go.minInt64
      20000000000 (metered Sample.alwaysFailing) ⟨0, 0, 0⟩ =
      (Go.Exit.returned (outcome (fun _ (s : Nat) => s) 20000000000 Sample.alwaysFailing 1
          (9223372036854775807 - 1)).1,
        ⟨(Sample.alwaysFailing (stateBefore (fun _ (s : Nat) => s) 20000000000
            Sample.alwaysFailing 1 (9223372036854775807 - 1))).2,
          9223372036854775808, 9223372036854775807⟩) := by
    rw [Retry_of_retry _ _ _ _ _ _ "attempt 0 failed" rfl hpos, wrap64_minInt64_pred]
    rw [hstart, Retry_stops_at (meteredSleep (fun _ (s : Nat) => s)) 20000000000
      (metered Sample.alwaysFailing) 9223372036854775807 9223372036854775806 Go.maxInt64 ⟨1, 1, 1⟩
      (by decide) (by decide) le_rfl (by decide) ?_ (Or.inr (Or.inr (by decide)))]
    · rw [outcome_metered, stateBefore_metered]
      rfl
    · intro i _
      rw [outcome_metered]
      exact ⟨_, rfl⟩
  have hover : Retry (meteredSleep (fun _ (s : Nat) => s)) (4194303 + 1) Go.minInt64 20000000000
      (metered Sample.alwaysFailing) ⟨0, 0, 0⟩ =
      (Go.Exit.stackOverflow, ⟨4194305, 4194305, 4194305⟩) := by
    rw [Retry_of_retry _ _ _ _ _ _ "attempt 0 failed" rfl hpos, wrap64_minInt64_pred]
    rw [hstart, Retry_overflows (meteredSleep (fun _ (s : Nat) => s)) 20000000000
      (metered Sample.alwaysFailing) 4194303 Go.maxInt64 ⟨1, 1, 1⟩ (by decide) le_rfl
      (fun i _ => ⟨_, rfl⟩), stateBefore_metered,
      stateBefore_of_counter 20000000000 Sample.alwaysFailing (fun _ => rfl)]
  have hlucky : Retry (meteredSleep (fun _ (s : Nat) => s)) (4194303 + 1) Go.minInt64 20000000000
      (metered Sample.secondTimeLucky) ⟨0, 0, 0⟩ = (Go.Exit.returned none, ⟨2, 2, 1⟩) := by
    rw [Retry_of_retry _ _ _ _ _ _ "try again" rfl hpos, Retry_of_final]
    · rfl
    · exact Or.inl rfl
  exact ⟨hlucky, hover, by rw [hrun], by rw [hrun]⟩

end retry
